import Mathlib

/-!
Verification of the dsts GEPA optimizer core (src/gepa.ts, src/pareto-utils.ts,
src/strategies.ts) against its natural-language specification.

Modelling conventions:
* JavaScript numbers are modelled as rationals; all claim-relevant numeric code
  performs only field arithmetic and comparisons.
* `Record<string, number>` score vectors are modelled as association lists
  `List (String × ℚ)` with first-match lookup defaulting to 0 (matching the
  `a[k] ?? 0` reads in the source).
* A JS `Set` built by repeated `add` is modelled as a duplicate-free list in
  insertion order; a JS `Map` used only through `get`/`set` is modelled either
  as an association list in insertion order (when iteration order matters) or
  as a total function with default 0 (the sampler frequency map, which is never
  iterated).
* Mutating loops are modelled by structural recursion / folds in statement order.
-/

namespace DSTS

attribute [local semireducible] Rat.add Rat.mul Rat.sub Rat.inv

/-- Objective vector: an ordered record of objective name to value. -/
abbrev Scores := List (String × ℚ)

/-- Source `a[k] ?? 0`: look a key up in a score record, defaulting to 0. -/
def getVal (a : Scores) (k : String) : ℚ := (a.lookup k).getD 0

/-- Append an element to a list unless present: one `Set.add` step. -/
def pushUniq (l : List String) (k : String) : List String :=
  if k ∈ l then l else l ++ [k]

/-- Source `new Set([...Object.keys(a), ...Object.keys(b)])`: union of the key lists
in first-occurrence order. -/
def jsSetUnion (ka kb : List String) : List String :=
  (ka ++ kb).foldl pushUniq []

/-- One key of the flag-accumulating loop of `checkDominance`
(pareto-utils.ts): `if aVal > bVal + eps` set the first flag, `else if
bVal > aVal + eps` set the second. -/
def domStep (a b : Scores) (eps : ℚ) (fl : Bool × Bool) (k : String) : Bool × Bool :=
  if getVal a k > getVal b k + eps then (true, fl.2)
  else if getVal b k > getVal a k + eps then (fl.1, true)
  else fl

/-- The two dominance flags of `checkDominance` after scanning all keys. -/
def domFlags (a b : Scores) (eps : ℚ) (keys : List String) : Bool × Bool :=
  keys.foldl (domStep a b eps) (false, false)

/-- Source `checkDominance(a, b, epsilon)` from pareto-utils.ts: `1` if `a` dominates
`b`, `-1` if `b` dominates `a`, `0` otherwise, computed over the union of keys
with missing keys defaulting to 0. -/
def checkDominance (a b : Scores) (eps : ℚ) : Int :=
  let keys := jsSetUnion (a.map Prod.fst) (b.map Prod.fst)
  let fl := domFlags a b eps keys
  if fl.1 && !fl.2 then 1
  else if fl.2 && !fl.1 then -1
  else 0

/-- The specification wording of dominance: over the union of objective keys of
`a` and `b` (missing keys default to 0), some key has `a[k] > b[k] + eps` and
no key has `b[k] > a[k] + eps`. -/
def Dominates (a b : Scores) (eps : ℚ) : Prop :=
  (∃ k ∈ jsSetUnion (a.map Prod.fst) (b.map Prod.fst),
      getVal a k > getVal b k + eps) ∧
  ∀ k ∈ jsSetUnion (a.map Prod.fst) (b.map Prod.fst),
      ¬ (getVal b k > getVal a k + eps)

instance (a b : Scores) (eps : ℚ) : Decidable (Dominates a b eps) := by
  unfold Dominates; infer_instance

/-- A member of the running Pareto front in `buildParetoFront`. -/
structure ParetoPoint where
  idx : ℕ
  scores : Scores
  dominated : List ℕ
deriving DecidableEq

/-- The inner scan of `buildParetoFront`: compare the candidate against every
current front member; return `none` if some front member dominates it
(the `break` on `dominance === -1`), else `some` of the list of front
positions the candidate dominates. -/
def scanFront (c : Scores) (eps : ℚ) : List ParetoPoint → ℕ → Option (List ℕ)
  | [], _ => some []
  | fp :: rest, i =>
    let d := checkDominance c fp.scores eps
    if d = -1 then none
    else if d = 1 then (scanFront c eps rest (i + 1)).map (fun ds => i :: ds)
    else scanFront c eps rest (i + 1)

/-- One step of `buildParetoFront`: process one candidate against the front. -/
def paretoStep (eps : ℚ) (front : List ParetoPoint) (c : ℕ × Scores) :
    List ParetoPoint :=
  match scanFront c.2 eps front 0 with
  | none => front
  | some ds =>
      (front.enum.filter (fun p => p.1 ∉ ds)).map Prod.snd ++
        [⟨c.1, c.2, ds.map (fun i => ((front.get? i).map ParetoPoint.idx).getD 0)⟩]

/-- Source `buildParetoFront(candidates, tieEpsilon)` from pareto-utils.ts. -/
def buildParetoFront (cands : List (ℕ × Scores)) (eps : ℚ) : List ParetoPoint :=
  cands.foldl (paretoStep eps) []

/-- Source `average(arr)` from pareto-utils.ts: 0 on the empty list. -/
def average (arr : List ℚ) : ℚ :=
  if arr.length = 0 then 0 else arr.sum / arr.length

/-- One insertion step of a stable insertion sort: `le x y = true` means `x`
may stay in front of `y`. -/
def insertBy (le : α → α → Bool) (x : α) : List α → List α
  | [] => [x]
  | y :: t => if le x y then x :: y :: t else y :: insertBy le x t

/-- Stable sort, modelling the (stable) JS `Array.prototype.sort`: elements
comparing equal keep their original relative order when `le` is reflexive. -/
def sortBy (le : α → α → Bool) (l : List α) : List α := l.foldr (insertBy le) []

/-- Source `Math.min(...)` over a nonempty list of rationals. -/
def jsMin (l : List ℚ) : ℚ := l.foldl min (l.headD 0)

/-- Source `referencePoint?.[k] ?? Math.min(...points.map(p => p[k] ?? 0)) - 1`. -/
def refVal (rp : Option Scores) (k : String) (points : List Scores) : ℚ :=
  match rp with
  | some r =>
      match r.lookup k with
      | some v => v
      | none => jsMin (points.map (fun p => getVal p k)) - 1
  | none => jsMin (points.map (fun p => getVal p k)) - 1

/-- Source `hypervolume2D(points, referencePoint?)` from pareto-utils.ts: `none`
models the JS `null` return. Note the source inspects only the key list of
`points[0]` before the sweep. -/
def hypervolume2D (points : List Scores) (refPoint : Option Scores) : Option ℚ :=
  match points with
  | [] => some 0
  | p0 :: _ =>
    let keys := p0.map Prod.fst
    if keys.length ≠ 2 then none
    else
      let obj1 := keys.getD 0 ""
      let obj2 := keys.getD 1 ""
      let ref1 := refVal refPoint obj1 points
      let ref2 := refVal refPoint obj2 points
      let sorted := sortBy (fun p q => decide (getVal q obj1 ≤ getVal p obj1)) points
      let fin := sorted.foldl
        (fun (acc : ℚ × ℚ) p =>
          let x := getVal p obj1
          let y := getVal p obj2
          if x > ref1 ∧ y > acc.2 then (acc.1 + (x - ref1) * (y - acc.2), y) else acc)
        (0, ref2)
      some fin.1

/-- The argmax-by-linear-scan pattern used both by
`CurrentBestCandidateSelector` and by the fallback of
`selectProgramCandidateFromInstanceFronts`: first occurrence of the maximum
wins (strict `>` updates). -/
def jsArgmaxAux : List ℚ → ℚ → ℕ → ℕ → ℕ
  | [], _, _, bestIdx => bestIdx
  | v :: rest, best, i, bestIdx =>
    if v > best then jsArgmaxAux rest v (i + 1) i
    else jsArgmaxAux rest best (i + 1) bestIdx

/-- Index of the first maximum of a list (0 on the empty list). -/
def jsArgmax (l : List ℚ) : ℕ :=
  match l with
  | [] => 0
  | v :: rest => jsArgmaxAux rest v 1 0

/-- Source `Map.set(k, (m.get(k) ?? 0) + 1)`: association-list model of the
frequency map, preserving JS `Map` insertion order. -/
def mapIncr (m : List (ℕ × ℕ)) (k : ℕ) : List (ℕ × ℕ) :=
  if (m.lookup k).isSome then m.map (fun p => if p.1 = k then (p.1, p.2 + 1) else p)
  else m ++ [(k, 1)]

/-- The frequency map of `selectProgramCandidateFromInstanceFronts`: for each
front, for each program in it, increment its count. Key order is
first-discovery order over the fronts. -/
def buildFreq (fronts : List (List ℕ)) : List (ℕ × ℕ) :=
  fronts.foldl (fun m front => front.foldl mapIncr m) []

/-- Source `m.get(k) ?? 0` on the association-list frequency map. -/
def freqLookup (m : List (ℕ × ℕ)) (k : ℕ) : ℕ := (m.lookup k).getD 0

/-- The cumulative-weight walk: subtract weights in list order, return the
first entry at which the remainder drops to `<= 0`; past the end, return the
last entry. -/
def cumWalk : List (ℕ × ℕ) → ℚ → ℕ
  | [], _ => 0
  | (c, w) :: rest, r =>
    if r - (w : ℚ) ≤ 0 then c
    else
      match rest with
      | [] => c
      | _ :: _ => cumWalk rest (r - (w : ℚ))

/-- Source `selectProgramCandidateFromInstanceFronts` from pareto-utils.ts, generic
over the threaded random generator `next`: a single `rand()` draw is consumed
only on the weighted-sampling path. -/
def selectProgramCandidateFromInstanceFronts (next : σ → ℚ × σ)
    (instanceFronts : List (List ℕ)) (perProgScores : List ℚ) (s : σ) : ℕ × σ :=
  let m := buildFreq instanceFronts
  let totalWeight : ℕ := (m.map (fun p => p.2)).sum
  if totalWeight = 0 ∨ m = [] then (jsArgmax perProgScores, s)
  else
    let (r0, s1) := next s
    (cumWalk m (r0 * (totalWeight : ℚ)), s1)

/-- Candidate: an ordered mapping from component name to text. -/
abbrev Candidate := List (String × String)

/-- Source `candidate[k] ?? ""` (component texts are strings). -/
def candGet (c : Candidate) (k : String) : String := (c.lookup k).getD ""

/-- Source `candidate[k] = v` on a JS object: update in place when the key exists,
else append. -/
def candSet (c : Candidate) (k v : String) : Candidate :=
  if (c.lookup k).isSome then c.map (fun p => if p.1 = k then (p.1, v) else p)
  else c ++ [(k, v)]

/-- Source `Object.keys(candidate)` in insertion order. -/
def candKeys (c : Candidate) : List String := c.map Prod.fst

/-- One archive record: `{candidate, scores, scalarScore, parent?}`. -/
structure ArchiveRecord where
  candidate : Candidate
  scores : Scores
  scalarScore : ℚ
  parent : Option ℕ := none
deriving DecidableEq

/-- Source `CurrentBestCandidateSelector.selectCandidate`: linear scan for the
highest `scalarScore`, first occurrence winning ties. -/
def currentBestSelect (cands : List ArchiveRecord) : ℕ :=
  jsArgmax (cands.map (fun c => c.scalarScore))

/-- One step of the per-instance front loop: program `kv.1` with score row
`kv.2` against the running best (`none` models the initial `-Infinity`) and
the tied argmax set. -/
def instanceFrontStep (i : ℕ) (acc : Option ℚ × List ℕ) (kv : ℕ × List ℚ) :
    Option ℚ × List ℕ :=
  let v := (kv.2.get? i).getD 0
  match acc.1 with
  | none => (some v, [kv.1])
  | some b =>
      if v > b then (some v, [kv.1])
      else if v = b then (acc.1, acc.2 ++ [kv.1])
      else acc

/-- The per-instance front loop of `ParetoCandidateSelector.selectCandidate`:
scan programs `k` in order, tracking the best value and the tied argmax set
in insertion order. -/
def instanceFront (iss : List (List ℚ)) (i : ℕ) : List ℕ :=
  (iss.enum.foldl (instanceFrontStep i) (none, [])).2

/-- All instance fronts; the instance count is `instanceScores[0]?.length ?? 0`. -/
def instanceFronts (iss : List (List ℚ)) : List (List ℕ) :=
  (List.range ((iss.head?.map List.length).getD 0)).map (instanceFront iss)

/-- Source `ParetoCandidateSelector.selectCandidate`, generic over the threaded
random generator: fall back to current-best when the instance-score matrix is
empty. -/
def paretoSelect (next : σ → ℚ × σ) (cands : List ArchiveRecord)
    (iss : List (List ℚ)) (s : σ) : ℕ × σ :=
  if iss = [] then (currentBestSelect cands, s)
  else
    selectProgramCandidateFromInstanceFronts next (instanceFronts iss)
      (iss.map average) s

/-! ### Minibatch sampler (`EpochShuffledBatchSampler`, strategies.ts) -/

/-- Mutable state of `EpochShuffledBatchSampler`. The frequency map is only
read through `get`/`set`, so it is modelled as a total function with
default 0. -/
structure SamplerState where
  minibatchSize : ℕ
  shuffled : List ℕ := []
  epoch : ℤ := -1
  freq : ℕ → ℕ := fun _ => 0

/-- Point update of the frequency function: `freq.set(i, (freq.get(i) ?? 0)+1)`. -/
def bumpFreq (f : ℕ → ℕ) (i : ℕ) : ℕ → ℕ :=
  fun x => if x = i then f x + 1 else f x

/-- Increment the frequency of every element of a list, in order. -/
def bumpAll (f : ℕ → ℕ) (l : List ℕ) : ℕ → ℕ := l.foldl bumpFreq f

/-- The Fisher–Yates loop of `updateShuffled`: `i` runs downward; each step
draws `r`, sets `j = Math.floor(r * (i + 1))` and swaps positions `i` and `j`
(the JS destructuring assignment reads both old values first). -/
def fyAux (next : σ → ℚ × σ) : ℕ → List ℕ → σ → List ℕ × σ
  | 0, l, s => (l, s)
  | i + 1, l, s =>
    let (r, s1) := next s
    let j := ⌊r * ((i : ℚ) + 2)⌋₊
    let vi := l.getD (i + 1) 0
    let vj := l.getD j 0
    fyAux next i ((l.set (i + 1) vj).set j vi) s1

/-- Fisher–Yates shuffle of a list, `i` from `length - 1` down to `1`. -/
def fisherYates (next : σ → ℚ × σ) (l : List ℕ) (s : σ) : List ℕ × σ :=
  fyAux next (l.length - 1) l s

/-- The padding loop of `updateShuffled`: append `candidates[k % len]` for
`k < numToPad`, bumping its frequency as it is appended. -/
def padLoop (cands : List ℕ) (numToPad : ℕ) (f : ℕ → ℕ) : List ℕ × (ℕ → ℕ) :=
  (List.range numToPad).foldl
    (fun acc k =>
      let id := cands.getD (k % cands.length) 0
      (acc.1 ++ [id], bumpFreq acc.2 id))
    ([], f)

/-- Source `EpochShuffledBatchSampler.updateShuffled(trainSize)`: shuffle the index
range, record frequencies, pad to a multiple of the minibatch size with the
least-frequently-seen indices (stable sort: ties broken by index value), and
advance the epoch counter. -/
def updateShuffled (next : σ → ℚ × σ) (trainSize : ℕ) (ss : SamplerState) (s : σ) :
    SamplerState × σ :=
  let (ids, s1) := fisherYates next (List.range trainSize) s
  let f1 := bumpAll ss.freq ids
  let mb := ss.minibatchSize
  let m := trainSize % mb
  let numToPad := if m = 0 then 0 else mb - m
  if numToPad > 0 then
    let cands := sortBy (fun a b => decide (f1 a ≤ f1 b)) (List.range trainSize)
    let (pads, f2) := padLoop cands numToPad f1
    ({ ss with shuffled := ids ++ pads, epoch := ss.epoch + 1, freq := f2 }, s1)
  else
    ({ ss with shuffled := ids, epoch := ss.epoch + 1, freq := f1 }, s1)

/-- Iterate `updateShuffled` a fixed number of times: the source's
`while (currEpoch >= this.epoch)` loop runs exactly
`currEpoch + 1 - epoch` times because each call increments `epoch` by one. -/
def iterUpdate (next : σ → ℚ × σ) (trainSize : ℕ) :
    ℕ → SamplerState → σ → SamplerState × σ
  | 0, ss, s => (ss, s)
  | k + 1, ss, s =>
    let (ss1, s1) := updateShuffled next trainSize ss s
    iterUpdate next trainSize k ss1 s1

/-- Source `EpochShuffledBatchSampler.nextBatch(data, iteration)`. -/
def nextBatch (next : σ → ℚ × σ) (data : List ℕ) (iteration : ℕ)
    (ss : SamplerState) (s : σ) : List ℕ × SamplerState × σ :=
  let trainSize := data.length
  let (ss1, s1) :=
    if ss.epoch = -1 then updateShuffled next trainSize { ss with epoch := 0 } s
    else (ss, s)
  let mb := ss1.minibatchSize
  let blocksPerEpoch := max 1 (ss1.shuffled.length / mb)
  let currEpoch : ℤ := (iteration / blocksPerEpoch : ℕ)
  let k := (currEpoch + 1 - ss1.epoch).toNat
  let (ss2, s2) := iterUpdate next trainSize k ss1 s1
  let base := (iteration * mb) % ss2.shuffled.length
  let indices := (ss2.shuffled.drop base).take mb
  (indices.map (fun i => data.getD i 0), ss2, s2)

/-! ### Seeded RNG (`GEPA.createRNG`, gepa.ts) -/

/-- One xorshift step on the 32-bit state: `s ^= s << 13; s ^= s >>> 17;
s ^= s << 5`, all on 32-bit patterns. -/
def rngStep (s : ℕ) : ℕ :=
  let s1 := (s ^^^ (s <<< 13)) % 2 ^ 32
  let s2 := s1 ^^^ (s1 >>> 17)
  (s2 ^^^ (s2 <<< 5)) % 2 ^ 32

/-- Source `seed || 123456789`: a zero (falsy) seed is replaced. -/
def rngInit (seed : ℕ) : ℕ := if seed = 0 then 123456789 else seed

/-- The RNG state after `n` draws from a given seed: a pure function. -/
def rngOf (seed n : ℕ) : ℕ := rngStep^[n] (rngInit seed)

/-- Source `(state >>> 0) / 4294967296`: the value returned by one draw. -/
def rngFrac (s : ℕ) : ℚ := (s : ℚ) / 4294967296

/-! ### The optimizer (`GEPA`, gepa.ts)

Task instances are opaque and modelled as naturals. Evaluation batches keep
the fields the optimizer core reads (`scores`, `metrics`); `outputs` and
`trajectories` are only passed through to the adapter collaborator and are
omitted. Logging, console printing and file persistence are observability
only and do not touch the claim-relevant state; they are omitted. -/

/-- One per-instance metrics record (`latency_ms`, `cost_usd` optional). -/
structure MetricEntry where
  latency_ms : Option ℚ := none
  cost_usd : Option ℚ := none
deriving DecidableEq

/-- The adapter evaluation result, as read by the core. -/
structure EvaluationBatch where
  scores : List ℚ
  metrics : Option (List MetricEntry) := none
deriving DecidableEq

/-- The adapter collaborator: deterministic functions (the determinism claims
assume mocked, deterministic adapters). Reflective-dataset examples are
modelled as pre-rendered strings. -/
structure Adapter where
  evaluate : List ℕ → Candidate → Bool → EvaluationBatch
  makeReflectiveDataset : Candidate → EvaluationBatch → List String → String → List String
  proposeNewTexts : Option (Candidate → (String → List String) → List String → Candidate) := none

/-- Source `private tieEpsilon: number = 0` — never reassigned in the source. -/
def tieEpsilon : ℚ := 0

/-- One history record `{iteration, candidate, scores, accepted}`. -/
structure HistoryEntry where
  iteration : ℕ
  candidate : Candidate
  scores : Scores
  accepted : Bool
deriving DecidableEq

/-- The resolved run configuration (the `GEPA` instance fields after the
constructor ran). -/
structure GEPAConfig where
  seedCandidate : Candidate
  trainset : List ℕ
  valset : Option (List ℕ) := none
  adapter : Adapter
  reflectionLM : String → String
  componentSelector : Candidate → ℕ → List String
  paretoStrategy : Bool := false
  reflectionMinibatchSize : ℕ := 3
  perfectScore : ℚ := 1
  skipPerfectScore : Bool := true
  maxMetricCalls : Option ℕ := none
  maxIterations : Option ℕ := none
  maxBudgetUSD : Option ℚ := none
  seed : ℕ := 0
  reflectionHint : Option String := none

/-- Source `valset ?? trainset`. -/
def valSetOf (cfg : GEPAConfig) : List ℕ := cfg.valset.getD cfg.trainset

/-- The mutable run state owned by the optimization loop. `nDraws` is a ghost
field (not in the source): it counts RNG draws so that reproducibility of the
RNG state can be stated; no control flow reads it. -/
structure LoopState where
  iteration : ℕ
  totalMetricCalls : ℕ
  totalCostUSD : ℚ
  rngState : ℕ
  nDraws : ℕ
  candidates : List ArchiveRecord
  perInstanceScores : List (List ℚ)
  stagnation : ℕ
  history : List HistoryEntry
  sampler : SamplerState

/-- One call of the seeded generator `this.rng`: step the xorshift state and
return the fraction. Also bumps the ghost draw counter. -/
def draw (st : LoopState) : ℚ × LoopState :=
  let s1 := rngStep st.rngState
  (rngFrac s1, { st with rngState := s1, nDraws := st.nDraws + 1 })

/-- Source `metrics.reduce((s, m) => s + (m.cost_usd ?? 0), 0)` guarded by
`if (metrics)`. -/
def metricsCost (e : EvaluationBatch) : ℚ :=
  match e.metrics with
  | none => 0
  | some ms => (ms.map (fun m => m.cost_usd.getD 0)).sum

/-- What `GEPA.evaluateCandidate` returns, plus the budget deltas it charges
(`totalMetricCalls += dataset.length` and the summed `cost_usd`). -/
structure EvalOutcome where
  scores : Scores
  scalarScore : ℚ
  instanceScores : List ℚ
  calls : ℕ
  cost : ℚ

/-- Source `GEPA.evaluateCandidate(candidate, dataset)`: full evaluation producing
the two-objective score vector `(correctness, latency)` with
`latency = -Math.max(0, avgLatency)`. -/
def evaluateCandidate (cfg : GEPAConfig) (candidate : Candidate) (dataset : List ℕ) :
    EvalOutcome :=
  let e := cfg.adapter.evaluate dataset candidate false
  let correctness := average e.scores
  let avgLatency :=
    match e.metrics with
    | some ms => if ms.length > 0 then average (ms.map (fun m => m.latency_ms.getD 0)) else 0
    | none => 0
  { scores := [("correctness", correctness), ("latency", -(max 0 avgLatency))],
    scalarScore := correctness,
    instanceScores := e.scores,
    calls := dataset.length,
    cost := metricsCost e }

/-- Source `JSON.stringify(examples, null, 2)` of the (pre-rendered) example
strings, modelled as a plain join. -/
def joinExamples (examples : List String) : String := String.intercalate ", " examples

/-- Source `GEPA.buildReflectionPrompt(componentName, currentText, examples)`. -/
def buildReflectionPrompt (cfg : GEPAConfig) (componentName currentText : String)
    (examples : List String) : String :=
  let hint :=
    match cfg.reflectionHint with
    | some h => "\nAdditional guidance:\n" ++ h ++ "\n"
    | none => ""
  "You are tasked with improving a text component based on execution feedback." ++ hint ++
    "\n\nComponent Name: " ++ componentName ++ "\nCurrent Text:\n" ++ currentText ++
    "\n\nExecution Examples and Feedback:\n" ++ joinExamples examples ++
    "\n\nBased on the feedback above, propose an improved version of the text " ++
    "that addresses the issues identified.\nFocus on:\n1. Fixing errors mentioned " ++
    "in the feedback\n2. Improving clarity and specificity\n3. Better handling edge " ++
    "cases\n4. Maintaining the original intent while improving execution\n\nProvide " ++
    "only the improved text, without any explanation or markdown formatting:"

/-- Source `GEPA.reflectAndPropose(candidate, minibatch, componentsToUpdate)`:
evaluate with traces (charged against both counters), then either delegate to
the adapter's custom proposal function or run the per-component reflection-LM
loop (components with no examples keep the parent text; LM output is
trimmed). -/
def reflectAndPropose (cfg : GEPAConfig) (st : LoopState) (candidate : Candidate)
    (minibatch : List ℕ) (componentsToUpdate : List String) : Candidate × LoopState :=
  let evalB := cfg.adapter.evaluate minibatch candidate true
  let st1 := { st with
    totalMetricCalls := st.totalMetricCalls + minibatch.length,
    totalCostUSD := st.totalCostUSD + metricsCost evalB }
  let rd := cfg.adapter.makeReflectiveDataset candidate evalB componentsToUpdate
  match cfg.adapter.proposeNewTexts with
  | some f => (f candidate rd componentsToUpdate, st1)
  | none =>
      let newCand := componentsToUpdate.foldl
        (fun acc comp =>
          if rd comp = [] then acc
          else
            let prompt := buildReflectionPrompt cfg comp (candGet candidate comp) (rd comp)
            candSet acc comp (cfg.reflectionLM prompt).trim)
        candidate
      (newCand, st1)

/-- Source `if (maxMetricCalls !== undefined && totalMetricCalls >= maxMetricCalls)`. -/
def stopMetricCalls (cfg : GEPAConfig) (st : LoopState) : Bool :=
  match cfg.maxMetricCalls with
  | some m => decide (st.totalMetricCalls ≥ m)
  | none => false

/-- Source `if (maxBudgetUSD !== undefined && totalCostUSD >= maxBudgetUSD)`. -/
def stopBudget (cfg : GEPAConfig) (st : LoopState) : Bool :=
  match cfg.maxBudgetUSD with
  | some b => decide (st.totalCostUSD ≥ b)
  | none => false

/-- Source `if (maxIterations !== undefined && iteration > maxIterations)`. -/
def stopIterations (cfg : GEPAConfig) (st : LoopState) : Bool :=
  match cfg.maxIterations with
  | some mi => decide (st.iteration > mi)
  | none => false

/-- Parent selection: the configured candidate selector applied to the
archive (the Pareto selector reads the instance-score matrix, which the loop
keeps synchronized, and may consume one RNG draw; the Pareto front indices are
passed but unused by both built-in selectors). -/
def selectParent (cfg : GEPAConfig) (st : LoopState) (_paretoIdxs : List ℕ) :
    ℕ × LoopState :=
  if cfg.paretoStrategy then paretoSelect draw st.candidates st.perInstanceScores st
  else (currentBestSelect st.candidates, st)

/-- Result of one pass of the `while (true)` loop body. -/
inductive StepRes where
  | brk (st : LoopState)
  | cont (st : LoopState)

/-- The state carried by a step result. -/
def stateOf : StepRes → LoopState
  | .brk st => st
  | .cont st => st

/-- Out-of-range archive read default (never used on the source's paths). -/
def dfltRecord : ArchiveRecord := ⟨[], [], 0, none⟩

/-- The part of a loop iteration from component selection to the stagnation
gate (gepa.ts lines 304–537): reflect, evaluate parent and child on the same
minibatch (cost charged, metric-call counter not touched), accept iff the
child's minibatch score sum strictly exceeds the parent's plus `tieEpsilon`,
update archive/matrix/stagnation accordingly, push history, and early-stop on
5 consecutive rejections. -/
def acceptPhase (cfg : GEPAConfig) (st : LoopState) (parentIdx : ℕ)
    (parent : ArchiveRecord) (minibatch : List ℕ) : StepRes :=
  let comps := cfg.componentSelector parent.candidate st.iteration
  let rp := reflectAndPropose cfg st parent.candidate minibatch comps
  let newCand := rp.1
  let st1 := rp.2
  let pEv := cfg.adapter.evaluate minibatch parent.candidate false
  let st2 := { st1 with totalCostUSD := st1.totalCostUSD + metricsCost pEv }
  let cEv := cfg.adapter.evaluate minibatch newCand false
  let st3 := { st2 with totalCostUSD := st2.totalCostUSD + metricsCost cEv }
  let parentMinibatchSum := pEv.scores.sum
  let childMinibatchSum := cEv.scores.sum
  let accepted := decide (childMinibatchSum > parentMinibatchSum + tieEpsilon)
  let st4 : LoopState :=
    if accepted then
      let childEval := evaluateCandidate cfg newCand (valSetOf cfg)
      { st3 with
        totalMetricCalls := st3.totalMetricCalls + childEval.calls,
        totalCostUSD := st3.totalCostUSD + childEval.cost,
        candidates := st3.candidates ++
          [⟨newCand, childEval.scores, childEval.scalarScore, some parentIdx⟩],
        perInstanceScores := st3.perInstanceScores ++ [childEval.instanceScores],
        stagnation := 0 }
    else { st3 with stagnation := st3.stagnation + 1 }
  let histScores :=
    if accepted then ((st4.candidates.getLast?).map ArchiveRecord.scores).getD [] else []
  let st5 : LoopState := { st4 with
    history := st4.history ++ [⟨st4.iteration, newCand, histScores, accepted⟩] }
  if st5.stagnation ≥ 5 then .brk st5 else .cont st5

/-- The perfect-score gate (gepa.ts lines 269–302): when enabled, evaluate the
parent on the minibatch — its cost is charged but `totalMetricCalls` is not —
and `continue` if the mean score reaches the threshold. -/
def gatePhase (cfg : GEPAConfig) (st : LoopState) (parentIdx : ℕ)
    (parent : ArchiveRecord) (minibatch : List ℕ) : StepRes :=
  if cfg.skipPerfectScore then
    let ev := cfg.adapter.evaluate minibatch parent.candidate false
    let st1 := { st with totalCostUSD := st.totalCostUSD + metricsCost ev }
    if average ev.scores ≥ cfg.perfectScore then .cont st1
    else acceptPhase cfg st1 parentIdx parent minibatch
  else acceptPhase cfg st parentIdx parent minibatch

/-- The part of a loop pass after the three budget checks (gepa.ts lines
235–537): recompute the Pareto front, select the parent, draw the minibatch,
then run the gate and the reflect/accept phase. -/
def iterBody (cfg : GEPAConfig) (st1 : LoopState) : StepRes :=
  let paretoIdxs :=
    (buildParetoFront (st1.candidates.enum.map (fun p => (p.1, p.2.scores)))
      tieEpsilon).map ParetoPoint.idx
  let sel := selectParent cfg st1 paretoIdxs
  let parent := sel.2.candidates.getD sel.1 dfltRecord
  let nb := nextBatch draw cfg.trainset sel.2.iteration sel.2.sampler sel.2
  gatePhase cfg { nb.2.2 with sampler := nb.2.1 } sel.1 parent nb.1

/-- One pass of the main `while (true)` loop (gepa.ts lines 214–537), in
source order: metric-call cap (before the increment), `iteration++`, cost cap,
iteration cap, then the selection/gate/accept body. -/
def loopIter (cfg : GEPAConfig) (st : LoopState) : StepRes :=
  if stopMetricCalls cfg st then .brk st
  else
    let st1 : LoopState := { st with iteration := st.iteration + 1 }
    if stopBudget cfg st1 then .brk st1
    else if stopIterations cfg st1 then .brk st1
    else iterBody cfg st1

/-- The state before the first loop pass: counters zeroed, RNG seeded, the
seed candidate fully evaluated on the validation set and stored as archive
record 0 (with its per-instance scores). -/
def initState (cfg : GEPAConfig) : LoopState :=
  let seedEval := evaluateCandidate cfg cfg.seedCandidate (valSetOf cfg)
  { iteration := 0,
    totalMetricCalls := seedEval.calls,
    totalCostUSD := seedEval.cost,
    rngState := rngInit cfg.seed,
    nDraws := 0,
    candidates := [⟨cfg.seedCandidate, seedEval.scores, seedEval.scalarScore, none⟩],
    perInstanceScores := [seedEval.instanceScores],
    stagnation := 0,
    history := [],
    sampler := { minibatchSize := cfg.reflectionMinibatchSize } }

/-- Run the loop for at most `fuel` passes (the source loop need not
terminate for every configuration, e.g. a pure cost budget with a free
adapter, so the embedding is fuelled). -/
def runLoop (cfg : GEPAConfig) : ℕ → LoopState → LoopState
  | 0, st => st
  | fuel + 1, st =>
    match loopIter cfg st with
    | .brk st1 => st1
    | .cont st1 => runLoop cfg fuel st1

/-- The final loop state of a fresh (non-resumed) run. -/
def runOptimize (cfg : GEPAConfig) (fuel : ℕ) : LoopState :=
  runLoop cfg fuel (initState cfg)

/-- The returned `GEPAResult`, assembled from the final state (best candidate
by `scalarScore`, first occurrence wins). -/
structure GEPAResult where
  bestCandidate : Candidate
  bestScore : ℚ
  paretoFront : List ArchiveRecord
  iterations : ℕ
  totalMetricCalls : ℕ
  totalCostUSD : ℚ
  history : List HistoryEntry

/-- Finalization (gepa.ts lines 539–597). -/
def gepaResult (cfg : GEPAConfig) (fuel : ℕ) : GEPAResult :=
  let st := runOptimize cfg fuel
  let pf := buildParetoFront (st.candidates.enum.map (fun p => (p.1, p.2.scores))) tieEpsilon
  let bestIdx := jsArgmax (st.candidates.map (fun c => c.scalarScore))
  { bestCandidate := (st.candidates.getD bestIdx dfltRecord).candidate,
    bestScore := (st.candidates.getD bestIdx dfltRecord).scalarScore,
    paretoFront := pf.map (fun p => st.candidates.getD p.idx dfltRecord),
    iterations := st.iteration,
    totalMetricCalls := st.totalMetricCalls,
    totalCostUSD := st.totalCostUSD,
    history := st.history }

/-! ### Constructor (`new GEPA(options)`, gepa.ts lines 68–155) -/

/-- Source `options.taskLM`: a model-id string, a function, or an object with a
`model` property (the object's extra knobs are adapter passthrough). -/
inductive TaskLMConfig where
  | str (model : String)
  | fn (f : String → String)
  | obj (model : String)

/-- Source `options.reflectionLM`: same three shapes. -/
inductive LMConfig where
  | str (model : String)
  | fn (f : String → String)
  | obj (model : String)

/-- Source `options.componentSelector`: the string choices or a custom selector. -/
inductive CompSelChoice where
  | roundRobinChoice
  | allChoice
  | customSel (f : Candidate → ℕ → List String)

/-- Source `RoundRobinComponentSelector.selectComponents`. -/
def roundRobinSelectComponents (c : Candidate) (iteration : ℕ) : List String :=
  let comps := candKeys c
  if comps.length = 0 then [] else [comps.getD (iteration % comps.length) ""]

/-- Source `AllComponentSelector.selectComponents`. -/
def allSelectComponents (c : Candidate) (_ : ℕ) : List String := candKeys c

/-- Modelled from the spec: `DefaultAdapter` (src/adapters/default-adapter.ts)
is the adapter collaborator and is not part of the specified core; the
constructor only needs that instantiating it yields an adapter. -/
def defaultAdapterOf (_model : String) : Adapter :=
  { evaluate := fun _ _ _ => { scores := [] },
    makeReflectiveDataset := fun _ _ _ _ => [],
    proposeNewTexts := none }

/-- Modelled from the spec: the reflection language model invocation is an
external collaborator (spec section 6); the constructor merely wraps the
configured model id into a `text -> text` function. -/
def externalLM (_model : String) : String → String := fun _ => ""

/-- Source `GEPA.initializeLanguageModel(config)`: throws when no config is given;
a function is used as-is; a string or object is wrapped. -/
def initializeLanguageModel (config : Option LMConfig) :
    Except String (String → String) :=
  match config with
  | none => .error "reflectionLM must be provided"
  | some (.fn f) => .ok f
  | some (.str m) => .ok (externalLM m)
  | some (.obj m) => .ok (externalLM m)

/-- Source `GEPAOptions` (types.ts), restricted to the fields the constructor
reads. Persistence and logging are omitted (observability only). -/
structure GEPAOptions where
  seedCandidate : Candidate := []
  trainset : List ℕ := []
  valset : Option (List ℕ) := none
  adapter : Option Adapter := none
  taskLM : Option TaskLMConfig := none
  reflectionLM : Option LMConfig := none
  candidateSelectionStrategy : Option String := none
  componentSelector : Option CompSelChoice := none
  skipPerfectScore : Option Bool := none
  reflectionMinibatchSize : Option ℕ := none
  perfectScore : Option ℚ := none
  reflectionHint : Option String := none
  maxMetricCalls : Option ℕ := none
  maxIterations : Option ℕ := none
  maxBudgetUSD : Option ℚ := none
  seed : Option ℕ := none

/-- The `GEPA` constructor: adapter/taskLM wiring, the unconditional
`initializeLanguageModel` call, strategy resolution, and the
at-least-one-budget check, with errors raised in source order. (The
`taskLM must be a string, function, or ...` throw is unreachable in this
typed model.) -/
def mkGEPA (o : GEPAOptions) : Except String GEPAConfig :=
  let adapter1 :=
    match o.taskLM with
    | some (.str m) => some (o.adapter.getD (defaultAdapterOf m))
    | some (.obj m) => some (o.adapter.getD (defaultAdapterOf m))
    | some (.fn _) => o.adapter
    | none => o.adapter
  match adapter1 with
  | none => .error "Either adapter or taskLM must be provided"
  | some adapter =>
    match initializeLanguageModel o.reflectionLM with
    | .error e => .error e
    | .ok rlm =>
      let componentSelector :=
        match o.componentSelector with
        | some .allChoice => allSelectComponents
        | some .roundRobinChoice => roundRobinSelectComponents
        | some (.customSel f) => f
        | none => roundRobinSelectComponents
      if o.maxMetricCalls = none ∧ o.maxIterations = none ∧ o.maxBudgetUSD = none then
        .error "You must set at least one of maxMetricCalls, maxIterations, or maxBudgetUSD"
      else
        .ok { seedCandidate := o.seedCandidate,
              trainset := o.trainset,
              valset := o.valset,
              adapter := adapter,
              reflectionLM := rlm,
              componentSelector := componentSelector,
              paretoStrategy := decide (o.candidateSelectionStrategy = some "pareto"),
              reflectionMinibatchSize := o.reflectionMinibatchSize.getD 3,
              perfectScore := o.perfectScore.getD 1,
              skipPerfectScore := o.skipPerfectScore.getD true,
              maxMetricCalls := o.maxMetricCalls,
              maxIterations := o.maxIterations,
              maxBudgetUSD := o.maxBudgetUSD,
              seed := o.seed.getD 0,
              reflectionHint := o.reflectionHint }

/-! ### Derived definitions used by the statements -/

/-- Recursive restatement of one `buildParetoFront` step: `none` when some
front member dominates the candidate; otherwise the kept and the removed
front members. Proved equal to `paretoStep` below. -/
def scanSpec (c : Scores) (eps : ℚ) : List ParetoPoint →
    Option (List ParetoPoint × List ParetoPoint)
  | [] => some ([], [])
  | fp :: rest =>
    let d := checkDominance c fp.scores eps
    if d = -1 then none
    else
      match scanSpec c eps rest with
      | none => none
      | some (kept, removed) =>
          if d = 1 then some (kept, fp :: removed) else some (fp :: kept, removed)

/-- Coverage of an input record by a front: it survives (same index and
scores) or some member dominates it. -/
def Covered (front : List ParetoPoint) (c : ℕ × Scores) : Prop :=
  (∃ m ∈ front, m.idx = c.1 ∧ m.scores = c.2) ∨
    ∃ m ∈ front, Dominates m.scores c.2 0

/-- Pairwise mutual non-domination. -/
def NoDom (eps : ℚ) (p q : ParetoPoint) : Prop :=
  ¬ Dominates p.scores q.scores eps ∧ ¬ Dominates q.scores p.scores eps

/-- Agreement of two loop states on everything except the RNG fields and the
sampler: RNG draws change nothing else. -/
def CoreEq (a b : LoopState) : Prop :=
  b.iteration = a.iteration ∧ b.totalMetricCalls = a.totalMetricCalls ∧
  b.totalCostUSD = a.totalCostUSD ∧ b.candidates = a.candidates ∧
  b.perInstanceScores = a.perInstanceScores ∧ b.stagnation = a.stagnation ∧
  b.history = a.history

/-- The RNG reproducibility invariant: the current state is the pure function
`rngOf` of the seed and the number of draws made. -/
def RngInv (seed : ℕ) (st : LoopState) : Prop :=
  st.rngState = rngOf seed st.nDraws

/-- Per-record archive invariant: a two-key `(correctness, latency)` score
vector with nonpositive latency. -/
def TwoKeyRecord (rec : ArchiveRecord) : Prop :=
  rec.scores.map Prod.fst = ["correctness", "latency"] ∧
    getVal rec.scores "latency" ≤ 0

/-- Archive invariant: every record has a two-key score vector. -/
def ArchInv (st : LoopState) : Prop := ∀ rec ∈ st.candidates, TwoKeyRecord rec

/-- The loop-head ordering asserted by the claim, written from its words:
increment the iteration counter first, then stop on the metric-call budget,
the cost budget, or the iteration cap, in that order (so every check observes
the incremented counter). Returns the stopping state, if any. For
refutation of C8. -/
def claimLoopHead (cfg : GEPAConfig) (st : LoopState) : Option LoopState :=
  let st1 : LoopState := { st with iteration := st.iteration + 1 }
  if stopMetricCalls cfg st1 then some st1
  else if stopBudget cfg st1 then some st1
  else if stopIterations cfg st1 then some st1
  else none

/-- The sampling mechanism asserted by the claim, written from its words: a
cumulative-weight walk over the archive indices in archive order
(`0, 1, ...`), with each index weighted by the number of instance fronts it
belongs to. For refutation of C7. -/
def claimArchiveOrderWalk (iss : List (List ℚ)) (r0 : ℚ) : ℕ :=
  let fronts := instanceFronts iss
  let weights := (List.range iss.length).map (freqLookup (buildFreq fronts))
  cumWalk ((List.range iss.length).zip weights) (r0 * ((weights.sum : ℕ) : ℚ))

/-- Source `this.adapter.isSome`-style condition under which the constructor
ends up with an adapter: one was passed, or `taskLM` is a model string or a
model object (a bare task function cannot create the default adapter). -/
def hasAdapterSource (o : GEPAOptions) : Bool :=
  o.adapter.isSome ||
    match o.taskLM with
    | some (.str _) => true
    | some (.obj _) => true
    | _ => false

/-! #### Concrete data for counterexamples and witnesses -/

/-- C2 counterexample data: with `eps = 1`, `exA` dominates `exB`, `exD`
dominates `exA`, but `exD` and `exB` are mutually non-dominating. -/
def exB : Scores := [("x", 0), ("y", 11)]

/-- Second C2 counterexample point. -/
def exA : Scores := [("x", 2), ("y", 10)]

/-- Third C2 counterexample point. -/
def exD : Scores := [("x", (7 : ℚ)/2), ("y", (19 : ℚ)/2)]

/-- C2 counterexample record list, in insertion order. -/
def exRecs : List (ℕ × Scores) := [(0, exB), (1, exA), (2, exD)]

/-- Example seed candidate for the concrete optimizer runs. -/
def exSeedCandidate : Candidate := [("system", "s0")]

/-- Example deterministic adapter: per-instance score 1/2 for the seed
candidate and 1 for any other candidate; every instance costs 1 USD and takes
10 ms. -/
def exAdapter : Adapter :=
  { evaluate := fun batch cand _ =>
      { scores := batch.map (fun _ => if cand = exSeedCandidate then (1 : ℚ)/2 else 1),
        metrics := some (batch.map (fun _ => { cost_usd := some 1, latency_ms := some 10 })) },
    makeReflectiveDataset := fun _ _ _ _ => ["example feedback"] }

/-- Example base configuration: one training instance, current-best
selection, round-robin components, gate disabled, iteration cap 3. -/
def exCfg : GEPAConfig :=
  { seedCandidate := exSeedCandidate,
    trainset := [0],
    adapter := exAdapter,
    reflectionLM := fun _ => " improved ",
    componentSelector := roundRobinSelectComponents,
    reflectionMinibatchSize := 1,
    skipPerfectScore := false,
    maxIterations := some 3,
    seed := 0 }

/-- Gate-enabled variant: the seed scores 1/2 on the minibatch and the
threshold is 1/2, so the perfect-score gate skips every iteration. -/
def exGateCfg : GEPAConfig := { exCfg with skipPerfectScore := true, perfectScore := 1/2 }

/-- Metric-budget variant: the seed evaluation alone exhausts the budget. -/
def exMetricCfg : GEPAConfig := { exCfg with maxMetricCalls := some 1 }

/-- An adapter carrying a custom proposal function, for C9. -/
def exAdapterWithPropose : Adapter := { exAdapter with proposeNewTexts := some (fun c _ _ => c) }

/-- An adapter whose custom proposal function always suggests the improved
candidate (used for the concrete accepted-iteration run). -/
def exAdapterP : Adapter :=
  { exAdapter with proposeNewTexts := some (fun _ _ _ => [("system", "improved")]) }

/-- The base configuration with the proposing adapter. -/
def exCfgP : GEPAConfig := { exCfg with adapter := exAdapterP }

/-- C9 counterexample options: adapter with a custom proposal function, an
iteration budget, but no reflection model. -/
def exOptsNoReflect : GEPAOptions :=
  { adapter := some exAdapterWithPropose, maxIterations := some 5 }

/-- C7 counterexample matrix: instance fronts are discovered in the order
`1` (front of instance 0), then `0` (front of instance 1). -/
def exIss2 : List (List ℚ) := [[0, 1], [1, 0]]

/-- C7 example matrix from the claim. -/
def exIss3 : List (List ℚ) := [[1, 0], [0, 1], [1/2, 1/2]]

/-- C4 counterexample points: the first point has two keys, the second has
three. -/
def exHvPoints : List Scores := [[("a", 1), ("b", 1)], [("a", 0), ("b", 0), ("c", 5)]]

/-- An all-zero rational stream, witnessing the sampler claims. -/
def zeroStream : ℕ → ℚ := fun _ => 0

/-- A counter-threaded generator reading from a stream. -/
def streamNext (f : ℕ → ℚ) : ℕ → ℚ × ℕ := fun n => (f n, n + 1)

/-- The sampler batches and state of the first epoch for `N = 5`,
`minibatchSize = 2`: three consecutive `nextBatch` calls at iterations 0, 1,
2 from a fresh sampler. -/
def epochRun (f : ℕ → ℚ) :
    (List ℕ × SamplerState × ℕ) × (List ℕ × SamplerState × ℕ) × (List ℕ × SamplerState × ℕ) :=
  let r0 := nextBatch (streamNext f) [0, 1, 2, 3, 4] 0 { minibatchSize := 2 } 0
  let r1 := nextBatch (streamNext f) [0, 1, 2, 3, 4] 1 r0.2.1 r0.2.2
  let r2 := nextBatch (streamNext f) [0, 1, 2, 3, 4] 2 r1.2.1 r1.2.2
  (r0, r1, r2)

/-- The C6 epoch property for a given rng stream, over `epochRun`: 6 slots,
all five indices covered by the first five slots with no repeat among them,
the padded slot (slot 6) least frequent at padding time, the three batches
of size 2 jointly covering every index. -/
def EpochProp (f : ℕ → ℚ) : Prop :=
  (epochRun f).1.2.1.shuffled.length = 6 ∧
  ((epochRun f).1.2.1.shuffled.take 5).Nodup ∧
  (∀ i < 5, i ∈ (epochRun f).1.2.1.shuffled.take 5) ∧
  (∀ i < 5,
    ((epochRun f).1.2.1.shuffled.take 5).count ((epochRun f).1.2.1.shuffled.getD 5 0) ≤
      ((epochRun f).1.2.1.shuffled.take 5).count i) ∧
  (epochRun f).1.1.length = 2 ∧ (epochRun f).2.1.1.length = 2 ∧
  (epochRun f).2.2.1.length = 2 ∧
  (∀ i < 5, i ∈ (epochRun f).1.1 ++ (epochRun f).2.1.1 ++ (epochRun f).2.2.1)

/-! ## Theorems -/

/-! ### C4: hypervolume2D -/

/-- C4 counterexample: the claim says `hypervolume2D` returns an absent
result whenever any point has other than exactly two objective keys, but on
`exHvPoints` — whose second point has three keys — the source returns a
present value (it inspects only the first point). -/
theorem c4_counterexample :
    (hypervolume2D exHvPoints none).isSome = true ∧
    ((exHvPoints.getD 1 []).map Prod.fst).length = 3 := by
  exact ⟨rfl, rfl⟩

/-- C4 (amended): `hypervolume2D` returns 0 for the empty point set, and for
a nonempty point set it returns a null/absent result exactly when the first
point has other than exactly two objective keys (later points are not
checked). -/
theorem c4_amended :
    (∀ rp, hypervolume2D [] rp = some 0) ∧
    ∀ (p : Scores) (ps : List Scores) (rp : Option Scores),
      (hypervolume2D (p :: ps) rp = none ↔ (p.map Prod.fst).length ≠ 2) := by
  refine ⟨fun rp => rfl, fun p ps rp => ?_⟩
  by_cases h : (p.map Prod.fst).length = 2
  · simp [hypervolume2D, h]
  · simp [hypervolume2D, h]

/-! ### C8: loop-head budget checks -/

/-- C8 counterexample: with the metric-call budget already exhausted, the
source stops with the iteration counter still at 0 (the metric-call check
runs before the increment), while the ordering asserted by the claim would
stop with the counter at 1. -/
theorem c8_counterexample :
    loopIter exMetricCfg (initState exMetricCfg) = .brk (initState exMetricCfg) ∧
    (initState exMetricCfg).iteration = 0 ∧
    (claimLoopHead exMetricCfg (initState exMetricCfg)).map LoopState.iteration = some 1 := by
  exact ⟨rfl, rfl, rfl⟩

/-- C8 (amended): each loop pass first checks the metric-call budget against
the not-yet-incremented state, then increments the iteration counter, then
checks the cost budget and the iteration cap, in that order, on the
incremented state. -/
theorem c8_amended : ∀ (cfg : GEPAConfig) (st : LoopState),
    (stopMetricCalls cfg st = true → loopIter cfg st = .brk st) ∧
    (stopMetricCalls cfg st = false →
      stopBudget cfg { st with iteration := st.iteration + 1 } = true →
      loopIter cfg st = .brk { st with iteration := st.iteration + 1 }) ∧
    (stopMetricCalls cfg st = false →
      stopBudget cfg { st with iteration := st.iteration + 1 } = false →
      stopIterations cfg { st with iteration := st.iteration + 1 } = true →
      loopIter cfg st = .brk { st with iteration := st.iteration + 1 }) := by
  intro cfg st
  refine ⟨fun h1 => ?_, fun h1 h2 => ?_, fun h1 h2 h3 => ?_⟩
  · simp [loopIter, h1]
  · simp [loopIter, h1, h2]
  · simp [loopIter, h1, h2, h3]

/-- C8 witness: the amended theorem applied to the concrete
metric-budget-exhausted run. -/
theorem c8_witness :
    stopMetricCalls exMetricCfg (initState exMetricCfg) = true ∧
    loopIter exMetricCfg (initState exMetricCfg) = .brk (initState exMetricCfg) :=
  ⟨rfl, (c8_amended exMetricCfg (initState exMetricCfg)).1 rfl⟩

/-! ### C9: fatal configuration errors -/

/-- C9 counterexample: an adapter with a custom proposal function and an
iteration budget, but no reflection model — the claim says construction
succeeds, yet the source constructor calls `initializeLanguageModel`
unconditionally and fails. -/
theorem c9_counterexample :
    (mkGEPA exOptsNoReflect).isOk = false ∧
    exOptsNoReflect.adapter.isSome = true ∧
    ((exOptsNoReflect.adapter.getD (defaultAdapterOf "")).proposeNewTexts).isSome = true ∧
    exOptsNoReflect.maxIterations.isSome = true :=
  ⟨rfl, rfl, rfl, rfl⟩

/-- C9 (amended): construction succeeds exactly when an adapter is available
(passed directly, or derivable from a model-id/object `taskLM`), a reflection
model is configured — this is required even when the adapter supplies a
custom proposal function — and at least one of the three stopping budgets is
set. -/
theorem c9_amended : ∀ o : GEPAOptions,
    (mkGEPA o).isOk =
      (hasAdapterSource o && o.reflectionLM.isSome &&
        (o.maxMetricCalls.isSome || o.maxIterations.isSome || o.maxBudgetUSD.isSome)) := by
  intro o
  obtain ⟨sc, ts, vs, ad, tlm, rlm, css, cs, sps, rmb, ps, rh, mmc, mit, mbu, sd⟩ := o
  rcases ad with _ | a <;>
    rcases tlm with _ | (m | f | m) <;>
    rcases rlm with _ | (m2 | f2 | m2) <;>
    rcases mmc with _ | x1 <;> rcases mit with _ | x2 <;> rcases mbu with _ | x3 <;>
    rfl

/-! ### Loop bookkeeping lemmas -/

/-- The stagnation gate returns the same state whether it breaks or not. -/
theorem stateOf_ite (c : Prop) [Decidable c] (x : LoopState) :
    stateOf (if c then .brk x else .cont x) = x := by split <;> rfl

/-- Reflection charges the minibatch length against the metric-call counter
and the trace evaluation's cost against the cost counter, and changes nothing
else of the state. -/
theorem reflectAndPropose_snd (cfg : GEPAConfig) (st : LoopState) (cand : Candidate)
    (mb : List ℕ) (comps : List String) :
    (reflectAndPropose cfg st cand mb comps).2 =
      { st with totalMetricCalls := st.totalMetricCalls + mb.length,
                totalCostUSD := st.totalCostUSD + metricsCost (cfg.adapter.evaluate mb cand true) } := by
  rcases hc : cfg.adapter.proposeNewTexts with _ | f <;> simp [reflectAndPropose, hc]

/-- Full evaluation always produces exactly the keys `correctness` and
`latency`, in that order. -/
theorem evaluateCandidate_keys (cfg : GEPAConfig) (cand : Candidate) (ds : List ℕ) :
    (evaluateCandidate cfg cand ds).scores.map Prod.fst = ["correctness", "latency"] := rfl

/-- The stored latency objective is never positive. -/
theorem evaluateCandidate_latency (cfg : GEPAConfig) (cand : Candidate) (ds : List ℕ) :
    getVal (evaluateCandidate cfg cand ds).scores "latency" ≤ 0 := by
  unfold evaluateCandidate getVal
  simp [List.lookup]

section Pres
variable {σ : Type} (next : σ → ℚ × σ) (P : σ → Prop)

/-- Any property preserved by one draw is preserved by the shuffle loop. -/
theorem fyAux_pres (h : ∀ s, P s → P (next s).2) :
    ∀ (i : ℕ) (l : List ℕ) (s : σ), P s → P (fyAux next i l s).2 := by
  intro i
  induction i with
  | zero => intro l s hs; exact hs
  | succ n ih => intro l s hs; exact ih _ _ (h s hs)

/-- Draw-preserved properties survive `fisherYates`. -/
theorem fisherYates_pres (h : ∀ s, P s → P (next s).2) (l : List ℕ) (s : σ) :
    P s → P (fisherYates next l s).2 :=
  fyAux_pres next P h _ l s

/-- The generator state after `updateShuffled` is the one after its shuffle. -/
theorem updateShuffled_snd (n : ℕ) (ss : SamplerState) (s : σ) :
    (updateShuffled next n ss s).2 = (fisherYates next (List.range n) s).2 := by
  rcases hfy : fisherYates next (List.range n) s with ⟨ids, s1⟩
  unfold updateShuffled
  simp only [hfy]
  split <;> first
    | rfl
    | (split <;> rfl)

/-- Draw-preserved properties survive `updateShuffled`. -/
theorem updateShuffled_pres (h : ∀ s, P s → P (next s).2) (n : ℕ) (ss : SamplerState) (s : σ) :
    P s → P (updateShuffled next n ss s).2 := by
  rw [updateShuffled_snd]
  exact fisherYates_pres next P h _ s

/-- Draw-preserved properties survive iterated reshuffles. -/
theorem iterUpdate_pres (h : ∀ s, P s → P (next s).2) (n : ℕ) :
    ∀ (k : ℕ) (ss : SamplerState) (s : σ), P s → P (iterUpdate next n k ss s).2 := by
  intro k
  induction k with
  | zero => intro ss s hs; exact hs
  | succ m ih => intro ss s hs; exact ih _ _ (updateShuffled_pres next P h n ss s hs)

/-- Draw-preserved properties survive `nextBatch`. -/
theorem nextBatch_pres (h : ∀ s, P s → P (next s).2) (data : List ℕ) (it : ℕ)
    (ss : SamplerState) (s : σ) : P s → P (nextBatch next data it ss s).2.2 := by
  intro hs
  unfold nextBatch
  simp only
  split
  · exact iterUpdate_pres next P h _ _ _ _ (updateShuffled_pres next P h _ _ _ hs)
  · exact iterUpdate_pres next P h _ _ _ _ hs

/-- Draw-preserved properties survive weighted candidate sampling. -/
theorem selectProgram_pres (h : ∀ s, P s → P (next s).2)
    (fronts : List (List ℕ)) (pp : List ℚ) (s : σ) :
    P s → P (selectProgramCandidateFromInstanceFronts next fronts pp s).2 := by
  intro hs
  rcases hnx : next s with ⟨r0, s1⟩
  unfold selectProgramCandidateFromInstanceFronts
  simp only [hnx]
  split
  · exact hs
  · have h2 := h s hs
    rw [hnx] at h2
    exact h2

/-- Draw-preserved properties survive Pareto candidate selection. -/
theorem paretoSelect_pres (h : ∀ s, P s → P (next s).2)
    (cands : List ArchiveRecord) (iss : List (List ℚ)) (s : σ) :
    P s → P (paretoSelect next cands iss s).2 := by
  intro hs
  unfold paretoSelect
  split
  · exact hs
  · exact selectProgram_pres next P h _ _ _ hs

end Pres

/-- Draw-preserved properties survive parent selection. -/
theorem selectParent_pres (P : LoopState → Prop) (h : ∀ st, P st → P (draw st).2)
    (cfg : GEPAConfig) (st : LoopState) (pidx : List ℕ) :
    P st → P (selectParent cfg st pidx).2 := by
  intro hs
  unfold selectParent
  split
  · exact paretoSelect_pres draw P h _ _ _ hs
  · exact hs

/-- Core-state agreement is reflexive. -/
theorem coreEq_refl (a : LoopState) : CoreEq a a := ⟨rfl, rfl, rfl, rfl, rfl, rfl, rfl⟩

/-- One RNG draw changes no core state. -/
theorem draw_coreEq (a : LoopState) : ∀ s, CoreEq a s → CoreEq a (draw s).2 := by
  intro s hs; exact hs

/-! ### C1: the acceptance rule -/

/-- C1: in the reflect/accept phase of an iteration, the mutated child is
accepted iff the sum of its minibatch scores strictly exceeds the parent's
sum plus `tieEpsilon`; on acceptance the child is fully evaluated on the
validation set (charged against the metric-call counter), appended to the
archive with its parent index, its per-instance scores are appended to the
matrix, and stagnation resets; on rejection archive and matrix are unchanged
and stagnation increments. -/
theorem c1_acceptance : ∀ (cfg : GEPAConfig) (st : LoopState) (parentIdx : ℕ)
    (parent : ArchiveRecord) (minibatch : List ℕ),
    let comps := cfg.componentSelector parent.candidate st.iteration
    let rp := reflectAndPropose cfg st parent.candidate minibatch comps
    let newCand := rp.1
    let pSum := (cfg.adapter.evaluate minibatch parent.candidate false).scores.sum
    let cSum := (cfg.adapter.evaluate minibatch newCand false).scores.sum
    let res := stateOf (acceptPhase cfg st parentIdx parent minibatch)
    let childEval := evaluateCandidate cfg newCand (valSetOf cfg)
    (cSum > pSum + tieEpsilon →
      res.candidates = st.candidates ++
        [⟨newCand, childEval.scores, childEval.scalarScore, some parentIdx⟩] ∧
      res.perInstanceScores = st.perInstanceScores ++ [childEval.instanceScores] ∧
      res.stagnation = 0 ∧
      res.totalMetricCalls = rp.2.totalMetricCalls + (valSetOf cfg).length) ∧
    (¬ (cSum > pSum + tieEpsilon) →
      res.candidates = st.candidates ∧
      res.perInstanceScores = st.perInstanceScores ∧
      res.stagnation = st.stagnation + 1) := by
  intro cfg st parentIdx parent minibatch
  simp only
  constructor
  · intro h
    simp only [acceptPhase, stateOf_ite, decide_eq_true h, if_pos rfl]
    refine ⟨by simp [reflectAndPropose_snd], by simp [reflectAndPropose_snd], rfl, ?_⟩
    simp [reflectAndPropose_snd, evaluateCandidate]
  · intro h
    simp only [acceptPhase, stateOf_ite, decide_eq_false h]
    simp [reflectAndPropose_snd]

/-- C1 witness: on the concrete run the child (scoring 1 against the
parent's 1/2) is accepted, so stagnation is reset. -/
theorem c1_witness :
    (stateOf (acceptPhase exCfgP (initState exCfgP) 0
        ((initState exCfgP).candidates.getD 0 dfltRecord) [0])).stagnation = 0 :=
  ((c1_acceptance exCfgP (initState exCfgP) 0
      ((initState exCfgP).candidates.getD 0 dfltRecord) [0]).1 (by decide)).2.2.1

/-! ### C5: the perfect-score gate -/

/-- C5 counterexample: on the concrete gate-enabled run the skipped
iteration charges 1 USD of cost for the parent's minibatch evaluation but
leaves the metric-call counter unchanged, contradicting the claim that the
evaluation is charged against both the cost budget and the metric-call
counter. -/
theorem c5_counterexample :
    (stateOf (loopIter exGateCfg (initState exGateCfg))).totalMetricCalls =
        (initState exGateCfg).totalMetricCalls ∧
    (stateOf (loopIter exGateCfg (initState exGateCfg))).totalCostUSD =
        (initState exGateCfg).totalCostUSD + 1 ∧
    exGateCfg.skipPerfectScore = true := by
  refine ⟨by decide, by decide, rfl⟩

/-- C5 (amended): when the gate is enabled and no budget stops the pass, the
parent is evaluated on the freshly drawn minibatch; if its mean score reaches
the threshold, the pass continues immediately with only the evaluation's cost
charged — the metric-call counter, archive, matrix, stagnation counter and
history are unchanged. -/
theorem c5_gate (cfg : GEPAConfig) (st : LoopState)
    (h1 : stopMetricCalls cfg st = false)
    (h2 : stopBudget cfg { st with iteration := st.iteration + 1 } = false)
    (h3 : stopIterations cfg { st with iteration := st.iteration + 1 } = false)
    (hskip : cfg.skipPerfectScore = true) :
    let st1 : LoopState := { st with iteration := st.iteration + 1 }
    let paretoIdxs := (buildParetoFront (st1.candidates.enum.map
      (fun p => (p.1, p.2.scores))) tieEpsilon).map ParetoPoint.idx
    let sel := selectParent cfg st1 paretoIdxs
    let parent := sel.2.candidates.getD sel.1 dfltRecord
    let nb := nextBatch draw cfg.trainset sel.2.iteration sel.2.sampler sel.2
    let st3 : LoopState := { nb.2.2 with sampler := nb.2.1 }
    let ev := cfg.adapter.evaluate nb.1 parent.candidate false
    average ev.scores ≥ cfg.perfectScore →
      loopIter cfg st = .cont { st3 with totalCostUSD := st3.totalCostUSD + metricsCost ev } ∧
      st3.totalMetricCalls = st.totalMetricCalls ∧
      st3.candidates = st.candidates ∧
      st3.perInstanceScores = st.perInstanceScores ∧
      st3.stagnation = st.stagnation ∧
      st3.history = st.history ∧
      st3.totalCostUSD = st.totalCostUSD ∧
      st3.iteration = st.iteration + 1 := by
  intro st1 paretoIdxs sel parent nb st3 ev
  intro havg
  have hsel : CoreEq st1 sel.2 :=
    selectParent_pres (CoreEq st1) (draw_coreEq st1) cfg st1 paretoIdxs (coreEq_refl st1)
  have hnb : CoreEq st1 nb.2.2 :=
    nextBatch_pres draw (CoreEq st1) (draw_coreEq st1) cfg.trainset sel.2.iteration
      sel.2.sampler sel.2 hsel
  have hst3 : CoreEq st1 st3 := hnb
  obtain ⟨e1, e2, e3, e4, e5, e6, e7⟩ := hst3
  refine ⟨?_, e2, e4, e5, e6, e7, e3, e1⟩
  simp only [loopIter, iterBody, h1, Bool.false_eq_true, if_false, h2, h3, gatePhase,
    hskip, if_true]
  rw [if_pos havg]

/-- C5 witness: the amended theorem applied to the concrete gate-enabled
run: the skip happens and the metric-call counter does not move. -/
theorem c5_witness :
    exGateCfg.skipPerfectScore = true ∧
    (stateOf (loopIter exGateCfg (initState exGateCfg))).totalMetricCalls =
      (initState exGateCfg).totalMetricCalls := by
  have h := c5_gate exGateCfg (initState exGateCfg) rfl rfl rfl rfl (by decide)
  refine ⟨rfl, ?_⟩
  rw [h.1]
  exact h.2.1

/-! ### C3: determinism and RNG reproducibility -/

/-- One RNG draw preserves the reproducibility invariant. -/
theorem draw_rngInv (seed : ℕ) : ∀ st, RngInv seed st → RngInv seed (draw st).2 := by
  intro st h
  unfold RngInv rngOf at *
  show rngStep st.rngState = rngStep^[st.nDraws + 1] (rngInit seed)
  rw [h, Function.iterate_succ_apply']

/-- Transport of the reproducibility invariant along RNG-field equality. -/
theorem rngInv_of_eq {seed : ℕ} {s s2 : LoopState} (h1 : s2.rngState = s.rngState)
    (h2 : s2.nDraws = s.nDraws) (h : RngInv seed s) : RngInv seed s2 := by
  unfold RngInv at *
  rw [h1, h2, h]

/-- The accept phase never draws from the RNG. -/
theorem acceptPhase_rngState (cfg : GEPAConfig) (st : LoopState) (pidx : ℕ)
    (p : ArchiveRecord) (mb : List ℕ) :
    (stateOf (acceptPhase cfg st pidx p mb)).rngState = st.rngState ∧
    (stateOf (acceptPhase cfg st pidx p mb)).nDraws = st.nDraws := by
  simp only [acceptPhase, stateOf_ite, reflectAndPropose_snd]
  split <;> exact ⟨rfl, rfl⟩

/-- The gate phase never draws from the RNG. -/
theorem gatePhase_rngState (cfg : GEPAConfig) (st : LoopState) (pidx : ℕ)
    (p : ArchiveRecord) (mb : List ℕ) :
    (stateOf (gatePhase cfg st pidx p mb)).rngState = st.rngState ∧
    (stateOf (gatePhase cfg st pidx p mb)).nDraws = st.nDraws := by
  unfold gatePhase
  split
  · dsimp only
    split
    · exact ⟨rfl, rfl⟩
    · exact acceptPhase_rngState cfg _ pidx p mb
  · exact acceptPhase_rngState cfg st pidx p mb

/-- The loop body preserves the reproducibility invariant. -/
theorem iterBody_rngInv (cfg : GEPAConfig) (seed : ℕ) (st1 : LoopState) :
    RngInv seed st1 → RngInv seed (stateOf (iterBody cfg st1)) := by
  intro h
  unfold iterBody
  refine rngInv_of_eq (gatePhase_rngState _ _ _ _ _).1 (gatePhase_rngState _ _ _ _ _).2 ?_
  exact nextBatch_pres draw _ (draw_rngInv seed) _ _ _ _
    (selectParent_pres _ (draw_rngInv seed) _ _ _ h)

/-- One loop pass preserves the reproducibility invariant. -/
theorem loopIter_rngInv (cfg : GEPAConfig) (seed : ℕ) (st : LoopState) :
    RngInv seed st → RngInv seed (stateOf (loopIter cfg st)) := by
  intro h
  unfold loopIter
  split
  · exact h
  · dsimp only
    split
    · exact h
    · split
      · exact h
      · exact iterBody_rngInv cfg seed _ h

/-- The whole loop preserves the reproducibility invariant. -/
theorem runLoop_rngInv (cfg : GEPAConfig) (seed : ℕ) :
    ∀ (fuel : ℕ) (st : LoopState), RngInv seed st → RngInv seed (runLoop cfg fuel st) := by
  intro fuel
  induction fuel with
  | zero => intro st h; exact h
  | succ n ih =>
      intro st h
      have h2 := loopIter_rngInv cfg seed st h
      unfold runLoop
      rcases hres : loopIter cfg st with st1 | st1
      · rw [hres] at h2; exact h2
      · rw [hres] at h2; exact ih st1 h2

/-- The initial state satisfies the reproducibility invariant. -/
theorem initState_rngInv (cfg : GEPAConfig) : RngInv cfg.seed (initState cfg) := rfl

/-- C3: the run is a pure function of its configuration — identical seed,
adapter, reflection responses and budgets (and fuel) give the identical
archive and the identical best candidate — and the RNG state reached by any
run is the pure function `rngOf` of the seed and the number of draws made. -/
theorem c3_determinism :
    (∀ (cfg1 cfg2 : GEPAConfig) (fuel1 fuel2 : ℕ), cfg1 = cfg2 → fuel1 = fuel2 →
      (runOptimize cfg1 fuel1).candidates = (runOptimize cfg2 fuel2).candidates ∧
      (gepaResult cfg1 fuel1).bestCandidate = (gepaResult cfg2 fuel2).bestCandidate) ∧
    (∀ (cfg : GEPAConfig) (fuel : ℕ),
      (runOptimize cfg fuel).rngState = rngOf cfg.seed (runOptimize cfg fuel).nDraws) := by
  constructor
  · intro cfg1 cfg2 fuel1 fuel2 hc hf
    rw [hc, hf]
    exact ⟨rfl, rfl⟩
  · intro cfg fuel
    exact runLoop_rngInv cfg cfg.seed fuel (initState cfg) (initState_rngInv cfg)

/-- C3 witness: two runs of the concrete configuration coincide, and its
final RNG state is the pure function of seed and draw count. -/
theorem c3_witness :
    (runOptimize exCfg 2).candidates = (runOptimize exCfg 2).candidates ∧
    (gepaResult exCfg 2).bestCandidate = (gepaResult exCfg 2).bestCandidate ∧
    (runOptimize exCfg 2).rngState = rngOf exCfg.seed (runOptimize exCfg 2).nDraws := by
  obtain ⟨ha, hb⟩ := c3_determinism.1 exCfg exCfg 2 2 rfl rfl
  exact ⟨ha, hb, c3_determinism.2 exCfg 2⟩

/-! ### C10: two-objective archive invariant -/

/-- One RNG draw does not touch the archive. -/
theorem draw_archInv : ∀ s, ArchInv s → ArchInv (draw s).2 := fun _ h => h

/-- The accept phase appends only freshly evaluated two-key records. -/
theorem acceptPhase_archInv (cfg : GEPAConfig) (st : LoopState) (pidx : ℕ)
    (p : ArchiveRecord) (mb : List ℕ) :
    ArchInv st → ArchInv (stateOf (acceptPhase cfg st pidx p mb)) := by
  intro h
  simp only [acceptPhase, stateOf_ite, reflectAndPropose_snd]
  split
  · intro rec hrec
    simp only [List.mem_append, List.mem_singleton] at hrec
    rcases hrec with h1 | h2
    · exact h rec h1
    · subst h2
      exact ⟨evaluateCandidate_keys _ _ _, evaluateCandidate_latency _ _ _⟩
  · exact fun rec hrec => h rec hrec

/-- The gate phase preserves the archive invariant. -/
theorem gatePhase_archInv (cfg : GEPAConfig) (st : LoopState) (pidx : ℕ)
    (p : ArchiveRecord) (mb : List ℕ) :
    ArchInv st → ArchInv (stateOf (gatePhase cfg st pidx p mb)) := by
  intro h
  unfold gatePhase
  split
  · dsimp only
    split
    · exact h
    · exact acceptPhase_archInv cfg _ pidx p mb h
  · exact acceptPhase_archInv cfg st pidx p mb h

/-- The loop body preserves the archive invariant. -/
theorem iterBody_archInv (cfg : GEPAConfig) (st1 : LoopState) :
    ArchInv st1 → ArchInv (stateOf (iterBody cfg st1)) := by
  intro h
  unfold iterBody
  refine gatePhase_archInv cfg _ _ _ _ ?_
  exact nextBatch_pres draw _ draw_archInv _ _ _ _
    (selectParent_pres _ draw_archInv _ _ _ h)

/-- One loop pass preserves the archive invariant. -/
theorem loopIter_archInv (cfg : GEPAConfig) (st : LoopState) :
    ArchInv st → ArchInv (stateOf (loopIter cfg st)) := by
  intro h
  unfold loopIter
  split
  · exact h
  · dsimp only
    split
    · exact h
    · split
      · exact h
      · exact iterBody_archInv cfg _ h

/-- The whole loop preserves the archive invariant. -/
theorem runLoop_archInv (cfg : GEPAConfig) :
    ∀ (fuel : ℕ) (st : LoopState), ArchInv st → ArchInv (runLoop cfg fuel st) := by
  intro fuel
  induction fuel with
  | zero => exact fun st h => h
  | succ n ih =>
      intro st h
      have h2 := loopIter_archInv cfg st h
      unfold runLoop
      rcases hres : loopIter cfg st with st1 | st1
      · rw [hres] at h2; exact h2
      · rw [hres] at h2; exact ih st1 h2

/-- The seed record is a fresh full evaluation, so the invariant holds
initially. -/
theorem initState_archInv (cfg : GEPAConfig) : ArchInv (initState cfg) := by
  intro rec hrec
  simp only [initState, List.mem_singleton] at hrec
  subst hrec
  exact ⟨evaluateCandidate_keys _ _ _, evaluateCandidate_latency _ _ _⟩

/-- C10: every record the loop ever stores in the archive carries exactly the
two objective keys `correctness` and `latency`, and its latency value is
nonpositive (negated clamped mean latency). -/
theorem c10_archive_two_keys : ∀ (cfg : GEPAConfig) (fuel : ℕ),
    ∀ rec ∈ (runOptimize cfg fuel).candidates,
      rec.scores.map Prod.fst = ["correctness", "latency"] ∧
        getVal rec.scores "latency" ≤ 0 := by
  intro cfg fuel rec hrec
  exact runLoop_archInv cfg fuel (initState cfg) (initState_archInv cfg) rec hrec

/-- C10 witness: the seed record of the concrete zero-fuel run. -/
theorem c10_witness :
    ((initState exCfg).candidates.getD 0 dfltRecord).scores.map Prod.fst =
        ["correctness", "latency"] ∧
      getVal ((initState exCfg).candidates.getD 0 dfltRecord).scores "latency" ≤ 0 :=
  c10_archive_two_keys exCfg 0 ((initState exCfg).candidates.getD 0 dfltRecord)
    (by simp [runOptimize, runLoop, initState])

/-! ### C7: Pareto/instance-frequency candidate selection -/

/-- Unfolding of one association-list lookup step. -/
lemma lookup_cons {α β : Type} [BEq α] [LawfulBEq α] [DecidableEq α]
    (a : α × β) (t : List (α × β)) (x : α) :
    List.lookup x (a :: t) = if x = a.1 then some a.2 else List.lookup x t := by
  rcases a with ⟨k, v⟩
  by_cases h : x = k
  · subst h; simp [List.lookup]
  · rw [if_neg h]
    show (match x == k with
      | true => some v
      | false => List.lookup x t) = List.lookup x t
    rw [beq_eq_false_iff_ne.mpr h]

lemma lookup_bumpMap (m : List (ℕ × ℕ)) (k x : ℕ) :
    List.lookup x (m.map (fun p => if p.1 = k then (p.1, p.2 + 1) else p)) =
      if x = k then (List.lookup k m).map (fun v => v + 1) else List.lookup x m := by
  induction m with
  | nil => by_cases h : x = k <;> simp [h]
  | cons a t ih =>
      rcases a with ⟨ak, av⟩
      by_cases hak : ak = k
      · subst hak
        by_cases hxk : x = ak
        · subst hxk; simp [lookup_cons, ih]
        · simp [lookup_cons, hxk, ih]
      · simp only [List.map_cons]
        rw [if_neg (by simpa using hak)]
        by_cases hxa : x = ak
        · subst hxa
          simp [lookup_cons, hak]
        · simp [lookup_cons, hxa, ih, Ne.symm hak]

lemma lookup_append_single (m : List (ℕ × ℕ)) (k x : ℕ) (v : ℕ) :
    List.lookup x (m ++ [(k, v)]) =
      match List.lookup x m with
      | some w => some w
      | none => if x = k then some v else none := by
  induction m with
  | nil => by_cases h : x = k <;> simp [lookup_cons, h]
  | cons a t ih =>
      rw [List.cons_append, lookup_cons, lookup_cons]
      by_cases hxa : x = a.1
      · rw [if_pos hxa, if_pos hxa]
      · rw [if_neg hxa, if_neg hxa, ih]

lemma freqLookup_mapIncr (m : List (ℕ × ℕ)) (k x : ℕ) :
    freqLookup (mapIncr m k) x = freqLookup m x + (if x = k then 1 else 0) := by
  unfold freqLookup mapIncr
  rcases hm : List.lookup k m with _ | v
  · rw [if_neg (by simp [hm])]
    rw [lookup_append_single]
    by_cases hxk : x = k
    · subst hxk
      simp [hm]
    · rcases hx : List.lookup x m with _ | w <;> simp [hx, hxk]
  · rw [if_pos (by simp [hm])]
    rw [lookup_bumpMap]
    by_cases hxk : x = k
    · subst hxk
      simp [hm]
    · simp [hxk]
lemma freqLookup_foldl (front : List ℕ) :
    ∀ (m : List (ℕ × ℕ)) (x : ℕ),
      freqLookup (front.foldl mapIncr m) x = freqLookup m x + front.count x := by
  induction front with
  | nil => intro m x; simp
  | cons h t ih =>
      intro m x
      rw [List.foldl_cons, ih, freqLookup_mapIncr, List.count_cons]
      by_cases hxh : x = h <;> simp [hxh] <;> omega

lemma freqLookup_buildFreq (fronts : List (List ℕ)) (x : ℕ) :
    freqLookup (buildFreq fronts) x = (fronts.map (fun fr => fr.count x)).sum := by
  unfold buildFreq
  have main : ∀ (fs : List (List ℕ)) (m : List (ℕ × ℕ)),
      freqLookup (fs.foldl (fun m front => front.foldl mapIncr m) m) x =
        freqLookup m x + (fs.map (fun fr => fr.count x)).sum := by
    intro fs
    induction fs with
    | nil => intro m; simp
    | cons f t ih =>
        intro m
        rw [List.foldl_cons, ih, freqLookup_foldl]
        simp [Nat.add_assoc]
  rw [main]
  simp [freqLookup]

lemma instanceFront_fold_nodup (i : ℕ) :
    ∀ (t : List (List ℚ)) (n : ℕ) (acc : Option ℚ × List ℕ),
      (∀ x ∈ acc.2, x < n) → acc.2.Nodup →
      ((List.foldl (instanceFrontStep i) acc (t.enumFrom n)).2.Nodup ∧
        ∀ x ∈ (List.foldl (instanceFrontStep i) acc (t.enumFrom n)).2, x < n + t.length) := by
  intro t
  induction t with
  | nil =>
      intro n acc hb hnd
      exact ⟨hnd, by simpa using hb⟩
  | cons row t ih =>
      intro n acc hb hnd
      have hstep : ∀ acc2 : Option ℚ × List ℕ,
          (∀ x ∈ acc2.2, x < n + 1) → acc2.2.Nodup →
          ((List.foldl (instanceFrontStep i) acc2 (t.enumFrom (n + 1))).2.Nodup ∧
            ∀ x ∈ (List.foldl (instanceFrontStep i) acc2 (t.enumFrom (n + 1))).2,
              x < n + (row :: t).length) := by
        intro acc2 h1 h2
        obtain ⟨g1, g2⟩ := ih (n + 1) acc2 h1 h2
        refine ⟨g1, fun x hx => ?_⟩
        have h3 := g2 x hx
        simp only [List.length_cons]
        omega
      have hfold : List.foldl (instanceFrontStep i) acc ((row :: t).enumFrom n) =
          List.foldl (instanceFrontStep i) (instanceFrontStep i acc (n, row)) (t.enumFrom (n + 1)) := rfl
      rw [hfold]
      rcases hacc : acc.1 with _ | b
      · have hse : instanceFrontStep i acc (n, row) = (some ((row.get? i).getD 0), [n]) := by
          simp only [instanceFrontStep, hacc]
        rw [hse]
        refine hstep _ ?_ (by simp)
        intro x hx
        simp only [List.mem_singleton] at hx
        omega
      · by_cases hgt : ((row.get? i).getD 0) > b
        · have hse : instanceFrontStep i acc (n, row) = (some ((row.get? i).getD 0), [n]) := by
            simp only [instanceFrontStep, hacc]
            rw [if_pos hgt]
          rw [hse]
          refine hstep _ ?_ (by simp)
          intro x hx
          simp only [List.mem_singleton] at hx
          omega
        · by_cases heq : ((row.get? i).getD 0) = b
          · have hse : instanceFrontStep i acc (n, row) = (some b, acc.2 ++ [n]) := by
              simp only [instanceFrontStep, hacc]
              rw [if_neg hgt, if_pos heq]
            rw [hse]
            refine hstep _ ?_ ?_
            · intro x hx
              simp only [List.mem_append, List.mem_singleton] at hx
              rcases hx with hx | hx
              · exact Nat.lt_succ_of_lt (hb x hx)
              · omega
            · simp only [List.nodup_append]
              refine ⟨hnd, by simp, ?_⟩
              intro x hx
              simp only [List.mem_singleton]
              intro hcon
              have := hb x hx
              omega
          · have hse : instanceFrontStep i acc (n, row) = acc := by
              simp only [instanceFrontStep, hacc]
              rw [if_neg hgt, if_neg heq]
            rw [hse]
            exact hstep _ (fun x hx => Nat.lt_succ_of_lt (hb x hx)) hnd

lemma instanceFront_nodup (iss : List (List ℚ)) (i : ℕ) : (instanceFront iss i).Nodup := by
  unfold instanceFront
  have h := instanceFront_fold_nodup i iss 0 (none, []) (by simp) (by simp)
  simpa [List.enum] using h.1
lemma cumWalk_mem : ∀ (m : List (ℕ × ℕ)) (r : ℚ), m ≠ [] → cumWalk m r ∈ m.map Prod.fst := by
  intro m
  induction m with
  | nil => intro r h; exact absurd rfl h
  | cons a t ih =>
      intro r _
      rcases a with ⟨c, w⟩
      unfold cumWalk
      split
      · simp
      · cases t with
        | nil => simp
        | cons b t2 =>
            exact List.mem_cons_of_mem _ (ih _ (by simp))

lemma buildFreq_pos (fronts : List (List ℕ)) : ∀ p ∈ buildFreq fronts, 1 ≤ p.2 := by
  unfold buildFreq
  have main : ∀ (fs : List (List ℕ)) (m : List (ℕ × ℕ)),
      (∀ p ∈ m, 1 ≤ p.2) → ∀ p ∈ fs.foldl (fun m front => front.foldl mapIncr m) m, 1 ≤ p.2 := by
    have inner : ∀ (fr : List ℕ) (m : List (ℕ × ℕ)),
        (∀ p ∈ m, 1 ≤ p.2) → ∀ p ∈ fr.foldl mapIncr m, 1 ≤ p.2 := by
      intro fr
      induction fr with
      | nil => intro m hm; exact hm
      | cons k t ih =>
          intro m hm
          refine ih (mapIncr m k) ?_
          intro p hp
          unfold mapIncr at hp
          split at hp
          · simp only [List.mem_map] at hp
            obtain ⟨q, hq, hpq⟩ := hp
            by_cases hqk : q.1 = k
            · rw [if_pos hqk] at hpq
              subst hpq
              simp
            · rw [if_neg hqk] at hpq
              subst hpq
              exact hm q hq
          · simp only [List.mem_append, List.mem_singleton] at hp
            rcases hp with hp | hp
            · exact hm p hp
            · subst hp; exact le_refl 1
    intro fs
    induction fs with
    | nil => intro m hm; exact hm
    | cons f t ih =>
        intro m hm
        exact ih _ (inner f m hm)
  exact main fronts [] (by simp)

lemma mem_keys_lookup (m : List (ℕ × ℕ)) (k : ℕ) (h : k ∈ m.map Prod.fst) :
    ∃ v, List.lookup k m = some v ∧ (k, v) ∈ m := by
  induction m with
  | nil => simp at h
  | cons a t ih =>
      rcases a with ⟨ak, av⟩
      rw [lookup_cons]
      by_cases hk : k = ak
      · subst hk
        exact ⟨av, by rw [if_pos rfl], by simp⟩
      · simp only [List.map_cons, List.mem_cons] at h
        rcases h with h | h
        · exact absurd h hk
        · obtain ⟨v, hv, hmem⟩ := ih h
          exact ⟨v, by rw [if_neg hk]; exact hv, by simp [hmem]⟩
lemma weight_eq_countP (iss : List (List ℚ)) (idx : ℕ) :
    freqLookup (buildFreq (instanceFronts iss)) idx =
      (instanceFronts iss).countP (fun fr => decide (idx ∈ fr)) := by
  rw [freqLookup_buildFreq]
  have h : ∀ fr ∈ instanceFronts iss, fr.count idx = if idx ∈ fr then 1 else 0 := by
    intro fr hfr
    have hnd : fr.Nodup := by
      unfold instanceFronts at hfr
      simp only [List.mem_map] at hfr
      obtain ⟨i, _, hi⟩ := hfr
      subst hi
      exact instanceFront_nodup iss i
    by_cases hm : idx ∈ fr
    · rw [if_pos hm]
      exact List.count_eq_one_of_mem hnd hm
    · rw [if_neg hm]
      exact List.count_eq_zero_of_not_mem hm
  have main : ∀ (fs : List (List ℕ)), (∀ fr ∈ fs, fr.count idx = if idx ∈ fr then 1 else 0) →
      (fs.map (fun fr => fr.count idx)).sum = fs.countP (fun fr => decide (idx ∈ fr)) := by
    intro fs
    induction fs with
    | nil => intro _; simp
    | cons f t ih =>
        intro hf
        rw [List.map_cons, List.sum_cons, List.countP_cons,
          ih (fun fr hfr => hf fr (List.mem_cons_of_mem f hfr)), hf f (List.mem_cons_self f t)]
        by_cases hm : idx ∈ f <;> simp [hm, Nat.add_comm]
  exact main _ h

lemma selectProgram_spec {σ : Type} (next : σ → ℚ × σ) (fronts : List (List ℕ))
    (pp : List ℚ) (s : σ)
    (h : ((buildFreq fronts).map (fun p => p.2)).sum ≠ 0) :
    (selectProgramCandidateFromInstanceFronts next fronts pp s).1 =
      cumWalk (buildFreq fronts)
        ((next s).1 * ((((buildFreq fronts).map (fun p => p.2)).sum : ℕ) : ℚ)) ∧
    1 ≤ freqLookup (buildFreq fronts)
        (selectProgramCandidateFromInstanceFronts next fronts pp s).1 := by
  have hne : buildFreq fronts ≠ [] := by
    intro hcon
    rw [hcon] at h
    simp at h
  have hsel : (selectProgramCandidateFromInstanceFronts next fronts pp s).1 =
      cumWalk (buildFreq fronts)
        ((next s).1 * ((((buildFreq fronts).map (fun p => p.2)).sum : ℕ) : ℚ)) := by
    unfold selectProgramCandidateFromInstanceFronts
    rcases hnx : next s with ⟨r0, s1⟩
    simp only [hnx]
    rw [if_neg (by push_neg; exact ⟨h, hne⟩)]
  refine ⟨hsel, ?_⟩
  rw [hsel]
  have hmem := cumWalk_mem (buildFreq fronts)
      ((next s).1 * ((((buildFreq fronts).map (fun p => p.2)).sum : ℕ) : ℚ)) hne
  obtain ⟨v, hv, hvm⟩ := mem_keys_lookup _ _ hmem
  have heq : freqLookup (buildFreq fronts)
      (cumWalk (buildFreq fronts)
        ((next s).1 * ((((buildFreq fronts).map (fun p => p.2)).sum : ℕ) : ℚ))) = v := by
    unfold freqLookup
    rw [hv]
    rfl
  rw [heq]
  exact buildFreq_pos fronts _ hvm

lemma example_never_two : ∀ r0 : ℚ, 0 ≤ r0 → r0 < 1 →
    (selectProgramCandidateFromInstanceFronts (fun (u : Unit) => (r0, u))
      (instanceFronts exIss3) (exIss3.map average) ()).1 ≠ 2 := by
  intro r0 h0 h1
  have hm : buildFreq (instanceFronts exIss3) = [(0, 1), (1, 1)] := by decide
  unfold selectProgramCandidateFromInstanceFronts
  rw [hm]
  rw [if_neg (by decide)]
  show cumWalk [(0, 1), (1, 1)]
      (r0 * (((List.map (fun p => p.2) [(0, 1), (1, 1)]).sum : ℕ) : ℚ)) ≠ 2
  intro hcon
  have hmem := cumWalk_mem [(0, 1), (1, 1)]
    (r0 * (((List.map (fun p => p.2) [(0, 1), (1, 1)]).sum : ℕ) : ℚ)) (by decide)
  rw [hcon] at hmem
  simp at hmem
/-- C7 counterexample: for the matrix `[[0,1],[1,0]]` the instance fronts are
discovered in the order 1, then 0, so with `rand() = 3/10` the source's
cumulative walk (in first-discovery order over the frequency map) selects
index 1, while the archive-order walk asserted by the claim selects
index 0. -/
theorem c7_counterexample :
    (selectProgramCandidateFromInstanceFronts (fun (u : Unit) => ((3 : ℚ)/10, u))
        (instanceFronts exIss2) (exIss2.map average) ()).1 = 1 ∧
    claimArchiveOrderWalk exIss2 ((3 : ℚ)/10) = 0 :=
  ⟨by decide, by decide⟩

/-- C7 (amended): each archive index's weight equals the number of instance
fronts containing it; with positive total weight the selection is the
cumulative-weight walk over the frequency map in first-discovery order over
the instance fronts (not archive order), and the selected index always has
positive weight; an empty matrix falls back to the current-best (scalar
score) selector and zero total weight falls back to the best mean instance
score; on the claim's example matrix the fronts are fronts of 0 and of 1,
the weights are 1, 1 and 0, and candidate 2 is never selected. -/
theorem c7_selection :
    (∀ (iss : List (List ℚ)) (idx : ℕ),
      freqLookup (buildFreq (instanceFronts iss)) idx =
        (instanceFronts iss).countP (fun fr => decide (idx ∈ fr))) ∧
    (∀ (σ : Type) (next : σ → ℚ × σ) (fronts : List (List ℕ)) (pp : List ℚ) (s : σ),
      ((buildFreq fronts).map (fun p => p.2)).sum ≠ 0 →
      (selectProgramCandidateFromInstanceFronts next fronts pp s).1 =
        cumWalk (buildFreq fronts)
          ((next s).1 * ((((buildFreq fronts).map (fun p => p.2)).sum : ℕ) : ℚ)) ∧
      1 ≤ freqLookup (buildFreq fronts)
          (selectProgramCandidateFromInstanceFronts next fronts pp s).1) ∧
    (∀ (σ : Type) (next : σ → ℚ × σ) (cands : List ArchiveRecord) (s : σ),
      paretoSelect next cands [] s = (currentBestSelect cands, s)) ∧
    (∀ (σ : Type) (next : σ → ℚ × σ) (fronts : List (List ℕ)) (pp : List ℚ) (s : σ),
      ((buildFreq fronts).map (fun p => p.2)).sum = 0 →
      selectProgramCandidateFromInstanceFronts next fronts pp s = (jsArgmax pp, s)) ∧
    (instanceFronts exIss3 = [[0], [1]] ∧
      freqLookup (buildFreq (instanceFronts exIss3)) 0 = 1 ∧
      freqLookup (buildFreq (instanceFronts exIss3)) 1 = 1 ∧
      freqLookup (buildFreq (instanceFronts exIss3)) 2 = 0 ∧
      ∀ r0 : ℚ, 0 ≤ r0 → r0 < 1 →
        (selectProgramCandidateFromInstanceFronts (fun (u : Unit) => (r0, u))
          (instanceFronts exIss3) (exIss3.map average) ()).1 ≠ 2) := by
  refine ⟨weight_eq_countP,
    fun σ next fronts pp s h => selectProgram_spec next fronts pp s h,
    ?_, ?_, by decide, by decide, by decide, by decide, example_never_two⟩
  · intro σ next cands s
    simp [paretoSelect]
  · intro σ next fronts pp s h
    unfold selectProgramCandidateFromInstanceFronts
    rw [if_pos (Or.inl h)]

/-- C7 witness: the never-selects-weight-zero part of the amended theorem at
the concrete draw 3/10. -/
theorem c7_witness :
    (0:ℚ) ≤ 3/10 ∧ (3:ℚ)/10 < 1 ∧
    (selectProgramCandidateFromInstanceFronts (fun (u : Unit) => ((3:ℚ)/10, u))
      (instanceFronts exIss3) (exIss3.map average) ()).1 ≠ 2 := by
  refine ⟨by decide, by decide, ?_⟩
  exact c7_selection.2.2.2.2.2.2.2.2 (3/10) (by decide) (by decide)



/-! ### C2 groundwork: dominance characterization -/

lemma mem_pushUniq (l : List String) (k x : String) :
    x ∈ pushUniq l k ↔ x ∈ l ∨ x = k := by
  unfold pushUniq
  split
  · constructor
    · exact fun h => Or.inl h
    · rintro (h | h)
      · exact h
      · subst h; assumption
  · simp

lemma mem_foldl_pushUniq : ∀ (l acc : List String) (x : String),
    x ∈ l.foldl pushUniq acc ↔ x ∈ acc ∨ x ∈ l := by
  intro l
  induction l with
  | nil => intro acc x; simp
  | cons a t ih =>
      intro acc x
      rw [List.foldl_cons, ih, mem_pushUniq]
      simp only [List.mem_cons]
      tauto

lemma mem_jsSetUnion (ka kb : List String) (x : String) :
    x ∈ jsSetUnion ka kb ↔ x ∈ ka ∨ x ∈ kb := by
  unfold jsSetUnion
  rw [mem_foldl_pushUniq]
  simp

lemma not_both_gt {x y eps : ℚ} (hε : 0 ≤ eps) (h : x > y + eps) : ¬ (y > x + eps) := by
  intro h2
  linarith

lemma domFold_spec {a b : Scores} {eps : ℚ} (hε : 0 ≤ eps) :
    ∀ (keys : List String) (acc : Bool × Bool),
      keys.foldl (domStep a b eps) acc =
        (acc.1 || keys.any (fun k => decide (getVal a k > getVal b k + eps)),
         acc.2 || keys.any (fun k => decide (getVal b k > getVal a k + eps))) := by
  intro keys
  induction keys with
  | nil => intro acc; simp
  | cons k t ih =>
      intro acc
      rw [List.foldl_cons, ih]
      by_cases h1 : getVal a k > getVal b k + eps
      · have h2 := not_both_gt hε h1
        simp [domStep, h1, h2, Bool.or_assoc]
      · by_cases h2 : getVal b k > getVal a k + eps
        · simp [domStep, h1, h2, Bool.or_assoc]
        · simp [domStep, h1, h2]

lemma dominates_iff_flags (a b : Scores) (eps : ℚ) :
    Dominates a b eps ↔
      ((jsSetUnion (a.map Prod.fst) (b.map Prod.fst)).any
          (fun k => decide (getVal a k > getVal b k + eps)) = true ∧
       (jsSetUnion (a.map Prod.fst) (b.map Prod.fst)).any
          (fun k => decide (getVal b k > getVal a k + eps)) = false) := by
  unfold Dominates
  constructor
  · rintro ⟨hex, hall⟩
    refine ⟨by simp only [List.any_eq_true, decide_eq_true_iff]; exact hex, ?_⟩
    rw [← Bool.not_eq_true]
    simp only [List.any_eq_true, decide_eq_true_iff, not_exists]
    intro k
    rintro ⟨hk, hgt⟩
    exact hall k hk hgt
  · rintro ⟨hA, hB⟩
    refine ⟨by simpa only [List.any_eq_true, decide_eq_true_iff] using hA, ?_⟩
    intro k hk hgt
    have h2 : (jsSetUnion (a.map Prod.fst) (b.map Prod.fst)).any
        (fun k => decide (getVal b k > getVal a k + eps)) = true := by
      simp only [List.any_eq_true, decide_eq_true_iff]
      exact ⟨k, hk, hgt⟩
    exact absurd (hB ▸ h2) (by decide)

lemma dominates_swap_iff (a b : Scores) (eps : ℚ) :
    Dominates b a eps ↔
      ((jsSetUnion (a.map Prod.fst) (b.map Prod.fst)).any
          (fun k => decide (getVal b k > getVal a k + eps)) = true ∧
       (jsSetUnion (a.map Prod.fst) (b.map Prod.fst)).any
          (fun k => decide (getVal a k > getVal b k + eps)) = false) := by
  have hmem : ∀ x, x ∈ jsSetUnion (b.map Prod.fst) (a.map Prod.fst) ↔
      x ∈ jsSetUnion (a.map Prod.fst) (b.map Prod.fst) := by
    intro x
    rw [mem_jsSetUnion, mem_jsSetUnion]
    exact or_comm
  unfold Dominates
  constructor
  · rintro ⟨⟨k, hk, hgt⟩, hall⟩
    constructor
    · simp only [List.any_eq_true, decide_eq_true_iff]
      exact ⟨k, (hmem k).mp hk, hgt⟩
    · rw [← Bool.not_eq_true]
      simp only [List.any_eq_true, decide_eq_true_iff, not_exists]
      intro k2
      rintro ⟨hk2, hgt2⟩
      exact hall k2 ((hmem k2).mpr hk2) hgt2
  · rintro ⟨hA, hB⟩
    constructor
    · simp only [List.any_eq_true, decide_eq_true_iff] at hA
      obtain ⟨k, hk, hgt⟩ := hA
      exact ⟨k, (hmem k).mpr hk, hgt⟩
    · intro k hk hgt
      have h2 : (jsSetUnion (a.map Prod.fst) (b.map Prod.fst)).any
          (fun k => decide (getVal a k > getVal b k + eps)) = true := by
        simp only [List.any_eq_true, decide_eq_true_iff]
        exact ⟨k, (hmem k).mp hk, hgt⟩
      exact absurd (hB ▸ h2) (by decide)

lemma checkDominance_spec (a b : Scores) (eps : ℚ) (hε : 0 ≤ eps) :
    checkDominance a b eps =
      if Dominates a b eps then 1 else if Dominates b a eps then -1 else 0 := by
  simp only [checkDominance, domFlags, domFold_spec hε, Bool.false_or]
  rcases hA : (jsSetUnion (a.map Prod.fst) (b.map Prod.fst)).any
      (fun k => decide (getVal a k > getVal b k + eps)) with _ | _ <;>
    rcases hB : (jsSetUnion (a.map Prod.fst) (b.map Prod.fst)).any
        (fun k => decide (getVal b k > getVal a k + eps)) with _ | _ <;>
    simp [dominates_swap_iff a b eps, dominates_iff_flags a b eps, hA, hB]

lemma dominates_antisymm {a b : Scores} {eps : ℚ} (h : Dominates a b eps) :
    ¬ Dominates b a eps := by
  obtain ⟨⟨k, hk, hgt⟩, _⟩ := h
  rintro ⟨_, hall⟩
  refine hall k ?_ hgt
  rw [mem_jsSetUnion]
  rw [mem_jsSetUnion] at hk
  exact hk.symm

lemma dominates_irrefl {a : Scores} {eps : ℚ} (hε : 0 ≤ eps) : ¬ Dominates a a eps := by
  rintro ⟨⟨k, _, hgt⟩, _⟩
  linarith

lemma checkDominance_eq_one {a b : Scores} {eps : ℚ} (hε : 0 ≤ eps) :
    checkDominance a b eps = 1 ↔ Dominates a b eps := by
  rw [checkDominance_spec a b eps hε]
  by_cases h1 : Dominates a b eps
  · simp [h1]
  · by_cases h2 : Dominates b a eps <;> simp [h1, h2]

lemma checkDominance_eq_negOne {a b : Scores} {eps : ℚ} (hε : 0 ≤ eps) :
    checkDominance a b eps = -1 ↔ Dominates b a eps := by
  rw [checkDominance_spec a b eps hε]
  by_cases h1 : Dominates a b eps
  · simp [h1, dominates_antisymm h1]
  · by_cases h2 : Dominates b a eps <;> simp [h1, h2]


lemma getVal_eq_zero_of_not_mem {a : Scores} {k : String} (h : k ∉ a.map Prod.fst) :
    getVal a k = 0 := by
  induction a with
  | nil => rfl
  | cons p t ih =>
      simp only [List.map_cons, List.mem_cons, not_or] at h
      unfold getVal
      rw [show (p :: t).lookup k = List.lookup k (p :: t) from rfl, lookup_cons]
      rw [if_neg h.1]
      exact ih h.2

lemma dominates_zero_iff (a b : Scores) :
    Dominates a b 0 ↔
      (∀ k, getVal b k ≤ getVal a k) ∧ (∃ k, getVal b k < getVal a k) := by
  unfold Dominates
  constructor
  · rintro ⟨⟨k, hk, hgt⟩, hall⟩
    refine ⟨?_, ⟨k, by linarith⟩⟩
    intro k2
    by_cases hk2 : k2 ∈ jsSetUnion (a.map Prod.fst) (b.map Prod.fst)
    · have := hall k2 hk2
      push_neg at this
      linarith
    · rw [mem_jsSetUnion] at hk2
      push_neg at hk2
      rw [getVal_eq_zero_of_not_mem hk2.1, getVal_eq_zero_of_not_mem hk2.2]
  · rintro ⟨hle, ⟨k, hlt⟩⟩
    have hk : k ∈ jsSetUnion (a.map Prod.fst) (b.map Prod.fst) := by
      rw [mem_jsSetUnion]
      by_contra hc
      push_neg at hc
      rw [getVal_eq_zero_of_not_mem hc.1, getVal_eq_zero_of_not_mem hc.2] at hlt
      exact lt_irrefl 0 hlt
    refine ⟨⟨k, hk, by linarith⟩, ?_⟩
    intro k2 _ hgt
    have := hle k2
    linarith

lemma dominates_zero_trans {a b c : Scores}
    (hab : Dominates a b 0) (hbc : Dominates b c 0) : Dominates a c 0 := by
  rw [dominates_zero_iff] at hab hbc ⊢
  obtain ⟨hab1, _⟩ := hab
  obtain ⟨hbc1, k, hk⟩ := hbc
  exact ⟨fun k2 => le_trans (hbc1 k2) (hab1 k2), ⟨k, lt_of_lt_of_le hk (hab1 k)⟩⟩

lemma scanFront_eq_none_iff (c : Scores) (eps : ℚ) (hε : 0 ≤ eps) :
    ∀ (front : List ParetoPoint) (i : ℕ),
      scanFront c eps front i = none ↔ ∃ fp ∈ front, Dominates fp.scores c eps := by
  intro front
  induction front with
  | nil => intro i; simp [scanFront]
  | cons fp rest ih =>
      intro i
      simp only [scanFront]
      by_cases h1 : checkDominance c fp.scores eps = -1
      · rw [if_pos h1]
        rw [checkDominance_eq_negOne hε] at h1
        simp only [true_iff]
        exact ⟨fp, List.mem_cons_self fp rest, h1⟩
      · rw [if_neg h1]
        by_cases h2 : checkDominance c fp.scores eps = 1
        · rw [if_pos h2]
          rw [Option.map_eq_none', ih]
          constructor
          · rintro ⟨m, hm, hd⟩
            exact ⟨m, List.mem_cons_of_mem fp hm, hd⟩
          · rintro ⟨m, hm, hd⟩
            rcases List.mem_cons.mp hm with hm | hm
            · subst hm
              exact absurd ((checkDominance_eq_negOne hε).mpr hd) h1
            · exact ⟨m, hm, hd⟩
        · rw [if_neg h2, ih]
          constructor
          · rintro ⟨m, hm, hd⟩
            exact ⟨m, List.mem_cons_of_mem fp hm, hd⟩
          · rintro ⟨m, hm, hd⟩
            rcases List.mem_cons.mp hm with hm | hm
            · subst hm
              exact absurd ((checkDominance_eq_negOne hε).mpr hd) h1
            · exact ⟨m, hm, hd⟩

lemma scanFront_some (c : Scores) (eps : ℚ) :
    ∀ (front : List ParetoPoint) (i : ℕ) (ds : List ℕ),
      scanFront c eps front i = some ds →
      ds = ((front.enumFrom i).filter
          (fun p => checkDominance c p.2.scores eps = 1)).map Prod.fst := by
  intro front
  induction front with
  | nil =>
      intro i ds h
      simp only [scanFront, Option.some.injEq] at h
      simp [← h]
  | cons fp rest ih =>
      intro i ds h
      simp only [scanFront] at h
      by_cases h1 : checkDominance c fp.scores eps = -1
      · simp [h1] at h
      · rw [if_neg h1] at h
        by_cases h2 : checkDominance c fp.scores eps = 1
        · rw [if_pos h2] at h
          rcases Option.map_eq_some'.mp h with ⟨ds2, hds2, hcons⟩
          rw [List.enumFrom_cons, List.filter_cons_of_pos (by simpa using h2),
            List.map_cons, ← hcons, ih (i + 1) ds2 hds2]
        · rw [if_neg h2] at h
          rw [List.enumFrom_cons, List.filter_cons_of_neg (by simpa using h2),
            ih (i + 1) ds h]


lemma enumFrom_functional {α : Type} {l : List α} {n j : ℕ} {x y : α}
    (hx : (j, x) ∈ l.enumFrom n) (hy : (j, y) ∈ l.enumFrom n) : x = y := by
  exact (List.mem_enumFrom hx).2.2.trans (List.mem_enumFrom hy).2.2.symm

lemma map_snd_filter_snd {α : Type} (r : α → Bool) :
    ∀ (l : List α) (n : ℕ),
      ((l.enumFrom n).filter (fun p => r p.2)).map Prod.snd = l.filter r := by
  intro l
  induction l with
  | nil => intro n; rfl
  | cons a t ih =>
      intro n
      rw [List.enumFrom_cons]
      by_cases h : r a
      · rw [List.filter_cons_of_pos (by simpa using h),
          List.filter_cons_of_pos (by simpa using h), List.map_cons, ih]
      · rw [List.filter_cons_of_neg (by simpa using h),
          List.filter_cons_of_neg (by simpa using h), ih]

lemma mem_positions_iff (c : Scores) (eps : ℚ) :
    ∀ (l : List ParetoPoint) (n : ℕ) (p : ℕ × ParetoPoint), p ∈ l.enumFrom n →
      (p.1 ∈ ((l.enumFrom n).filter
          (fun p => checkDominance c p.2.scores eps = 1)).map Prod.fst ↔
        checkDominance c p.2.scores eps = 1) := by
  intro l n p hp
  constructor
  · intro hmem
    rcases List.mem_map.mp hmem with ⟨p2, hp2, hfst⟩
    rcases List.mem_filter.mp hp2 with ⟨hp2e, hq⟩
    rcases p with ⟨j, x⟩
    rcases p2 with ⟨j2, x2⟩
    simp only at hfst
    subst hfst
    have hxx : x2 = x := enumFrom_functional hp2e hp
    subst hxx
    simpa using hq
  · intro hP
    exact List.mem_map.mpr ⟨p, List.mem_filter.mpr ⟨hp, by simpa using hP⟩, rfl⟩

lemma decide_notin_positions (c : Scores) (eps : ℚ) (front : List ParetoPoint) :
    ∀ p ∈ front.enum,
      (decide (p.1 ∉
        (((front.enumFrom 0).filter
            (fun p => checkDominance c p.2.scores eps = 1)).map Prod.fst)))
        = !(decide (checkDominance c p.2.scores eps = 1)) := by
  intro p hp
  by_cases hq : checkDominance c p.2.scores eps = 1
  · have hmem := (mem_positions_iff c eps front 0 p hp).mpr hq
    rw [decide_eq_false (not_not_intro hmem), decide_eq_true hq]
    rfl
  · have hmem : p.1 ∉ (((front.enumFrom 0).filter
        (fun p => checkDominance c p.2.scores eps = 1)).map Prod.fst) :=
      fun hc => hq ((mem_positions_iff c eps front 0 p hp).mp hc)
    rw [decide_eq_true hmem, decide_eq_false hq]
    rfl

lemma survivors_eq (c : Scores) (eps : ℚ) (front : List ParetoPoint) :
    ((front.enum.filter (fun p => p.1 ∉
        (((front.enumFrom 0).filter
            (fun p => checkDominance c p.2.scores eps = 1)).map Prod.fst))).map Prod.snd)
      = front.filter (fun fp => ¬(checkDominance c fp.scores eps = 1)) := by
  rw [List.filter_congr (decide_notin_positions c eps front)]
  simp only [decide_not]
  have h0 := map_snd_filter_snd
      (fun fp : ParetoPoint => !decide (checkDominance c fp.scores eps = 1)) front 0
  exact h0

lemma paretoStep_pairwise {eps : ℚ} (hε : 0 ≤ eps) {front : List ParetoPoint}
    (h : front.Pairwise (NoDom eps)) (c : ℕ × Scores) :
    (paretoStep eps front c).Pairwise (NoDom eps) := by
  rcases hscan : scanFront c.2 eps front 0 with _ | ds
  · simpa only [paretoStep, hscan] using h
  · have hds := scanFront_some c.2 eps front 0 ds hscan
    simp only [paretoStep, hscan]
    rw [hds, survivors_eq c.2 eps front]
    apply List.pairwise_append.mpr
    refine ⟨List.Pairwise.sublist (List.filter_sublist _) h, List.pairwise_singleton _ _, ?_⟩
    intro x hx y hy
    simp only [List.mem_singleton] at hy
    subst hy
    rcases List.mem_filter.mp hx with ⟨hxf, hxq⟩
    have hnd1 : ¬ Dominates c.2 x.scores eps := by
      rw [← checkDominance_eq_one hε]
      simpa using hxq
    have hnd2 : ¬ Dominates x.scores c.2 eps := by
      intro hd
      have hnone : scanFront c.2 eps front 0 = none :=
        (scanFront_eq_none_iff c.2 eps hε front 0).mpr ⟨x, hxf, hd⟩
      rw [hscan] at hnone
      simp at hnone
    exact ⟨hnd2, hnd1⟩

lemma paretoStep_covers_self (front : List ParetoPoint) (c : ℕ × Scores) :
    Covered (paretoStep 0 front c) c := by
  rcases hscan : scanFront c.2 0 front 0 with _ | ds
  · obtain ⟨fp, hfp, hd⟩ := (scanFront_eq_none_iff c.2 0 le_rfl front 0).mp hscan
    simp only [paretoStep, hscan]
    exact Or.inr ⟨fp, hfp, hd⟩
  · simp only [paretoStep, hscan]
    exact Or.inl ⟨_, List.mem_append_right _ (List.mem_singleton.mpr rfl), rfl, rfl⟩

lemma paretoStep_covered_mono {front : List ParetoPoint} {d : ℕ × Scores}
    (h : Covered front d) (c : ℕ × Scores) :
    Covered (paretoStep 0 front c) d := by
  rcases hscan : scanFront c.2 0 front 0 with _ | ds
  · simpa only [paretoStep, hscan] using h
  · have hds := scanFront_some c.2 0 front 0 ds hscan
    simp only [paretoStep, hscan]
    rw [hds, survivors_eq c.2 0 front]
    rcases h with ⟨m, hm, hidx, hsc⟩ | ⟨m, hm, hd⟩
    · by_cases hq : checkDominance c.2 m.scores 0 = 1
      · have hdom : Dominates c.2 m.scores 0 := (checkDominance_eq_one le_rfl).mp hq
        exact Or.inr ⟨⟨c.1, c.2, _⟩,
          List.mem_append_right _ (List.mem_singleton.mpr rfl), hsc ▸ hdom⟩
      · exact Or.inl ⟨m,
          List.mem_append_left _ (List.mem_filter.mpr ⟨hm, by simpa using hq⟩), hidx, hsc⟩
    · by_cases hq : checkDominance c.2 m.scores 0 = 1
      · have hdom : Dominates c.2 m.scores 0 := (checkDominance_eq_one le_rfl).mp hq
        exact Or.inr ⟨⟨c.1, c.2, _⟩,
          List.mem_append_right _ (List.mem_singleton.mpr rfl),
          dominates_zero_trans hdom hd⟩
      · exact Or.inr ⟨m,
          List.mem_append_left _ (List.mem_filter.mpr ⟨hm, by simpa using hq⟩), hd⟩


lemma foldl_paretoStep_pairwise {eps : ℚ} (hε : 0 ≤ eps) :
    ∀ (cands : List (ℕ × Scores)) (front : List ParetoPoint),
      front.Pairwise (NoDom eps) →
      (cands.foldl (paretoStep eps) front).Pairwise (NoDom eps) := by
  intro cands
  induction cands with
  | nil => intro front h; exact h
  | cons a t ih =>
      intro front h
      exact ih _ (paretoStep_pairwise hε h a)

lemma foldl_paretoStep_covers :
    ∀ (cands : List (ℕ × Scores)) (front : List ParetoPoint) (c : ℕ × Scores),
      (Covered front c ∨ c ∈ cands) →
      Covered (cands.foldl (paretoStep 0) front) c := by
  intro cands
  induction cands with
  | nil =>
      intro front c h
      rcases h with h | h
      · exact h
      · simp at h
  | cons a t ih =>
      intro front c h
      rw [List.foldl_cons]
      apply ih
      rcases h with h | h
      · exact Or.inl (paretoStep_covered_mono h a)
      · rcases List.mem_cons.mp h with h | h
        · subst h
          exact Or.inl (paretoStep_covers_self front _)
        · exact Or.inr h

/-- C2 (amended): for every candidate list and every `eps ≥ 0` no two members of
`buildParetoFront` dominate each other; the coverage half holds at `eps = 0`:
every input record either appears in the front or is dominated by a front member.
(For `eps > 0` coverage fails, `eps`-dominance not being transitive: see the
counterexample.) -/
theorem c2_pareto :
    (∀ (cands : List (ℕ × Scores)) (eps : ℚ), 0 ≤ eps →
      (buildParetoFront cands eps).Pairwise (NoDom eps)) ∧
    (∀ (cands : List (ℕ × Scores)), ∀ c ∈ cands,
      Covered (buildParetoFront cands 0) c) := by
  constructor
  · intro cands eps hε
    exact foldl_paretoStep_pairwise hε cands [] List.Pairwise.nil
  · intro cands c hc
    exact foldl_paretoStep_covers cands [] c (Or.inr hc)

/-- C2 counterexample: at `eps = 1 ≥ 0` the record `(0, exB)` of `exRecs` is
excluded from `buildParetoFront exRecs 1` (no front member carries its index and
scores), yet no member of that front dominates it — refuting the claim's coverage
half for positive epsilon. -/
theorem c2_counterexample :
    (0:ℚ) ≤ 1 ∧ (0, exB) ∈ exRecs ∧
    (∀ m ∈ buildParetoFront exRecs 1, ¬(m.idx = 0 ∧ m.scores = exB)) ∧
    (∀ m ∈ buildParetoFront exRecs 1, ¬ Dominates m.scores exB 1) := by
  decide

/-- Witness for `c2_pareto` at the concrete archive `exRecs`. -/
theorem c2_witness :
    ((0:ℚ) ≤ 1 ∧ (buildParetoFront exRecs 1).Pairwise (NoDom 1)) ∧
    ((0, exB) ∈ exRecs ∧ Covered (buildParetoFront exRecs 0) (0, exB)) :=
  ⟨⟨by norm_num, c2_pareto.1 exRecs 1 (by norm_num)⟩,
   ⟨by decide, c2_pareto.2 exRecs (0, exB) (by decide)⟩⟩


/-! ### C6: sampler epoch coverage -/

lemma getD_cons_set_perm : ∀ (t : List ℕ) (m : ℕ) (x : ℕ), m < t.length →
    (t.getD m 0 :: t.set m x).Perm (x :: t) := by
  intro t
  induction t with
  | nil => intro m x hm; simp at hm
  | cons h tt ih =>
      intro m x hm
      cases m with
      | zero => exact List.Perm.swap x h tt
      | succ m =>
          have hm2 : m < tt.length := by simpa using hm
          exact (List.Perm.swap h (tt.getD m 0) (tt.set m x)).trans
            (((ih m x hm2).cons h).trans (List.Perm.swap x h tt))

lemma set_set_swap_perm : ∀ (l : List ℕ) (a b : ℕ), a < l.length → b < l.length →
    ((l.set a (l.getD b 0)).set b (l.getD a 0)).Perm l := by
  intro l
  induction l with
  | nil => intro a b ha _; simp at ha
  | cons h t ih =>
      intro a b ha hb
      cases a with
      | zero =>
          cases b with
          | zero => exact List.Perm.refl _
          | succ m =>
              have hm : m < t.length := by simpa using hb
              exact getD_cons_set_perm t m h hm
      | succ n =>
          cases b with
          | zero =>
              have hn : n < t.length := by simpa using ha
              exact getD_cons_set_perm t n h hn
          | succ m =>
              have hn : n < t.length := by simpa using ha
              have hm : m < t.length := by simpa using hb
              exact (ih n m hn hm).cons h

lemma fyAux_perm {σ : Type} (next : σ → ℚ × σ)
    (hnext : ∀ s, 0 ≤ (next s).1 ∧ (next s).1 < 1) :
    ∀ (i : ℕ) (l : List ℕ) (s : σ), i < l.length → ((fyAux next i l s).1).Perm l := by
  intro i
  induction i with
  | zero => intro l s _; exact List.Perm.refl l
  | succ i ih =>
      intro l s hi
      rcases hnx : next s with ⟨r, s1⟩
      simp only [fyAux, hnx]
      have hr0 : (0:ℚ) ≤ r := by
        have h := (hnext s).1
        rw [hnx] at h
        exact h
      have hr1 : r < 1 := by
        have h := (hnext s).2
        rw [hnx] at h
        exact h
      have hj : ⌊r * ((i : ℚ) + 2)⌋₊ < l.length := by
        have h2 : ⌊r * ((i : ℚ) + 2)⌋₊ < i + 2 := by
          rw [Nat.floor_lt (mul_nonneg hr0 (by positivity))]
          push_cast
          calc r * ((i:ℚ) + 2) < 1 * ((i:ℚ) + 2) := by
                apply mul_lt_mul_of_pos_right hr1
                positivity
            _ = (i:ℚ) + 2 := one_mul _
        omega
      have hlen : i < ((l.set (i + 1) (l.getD (⌊r * ((i : ℚ) + 2)⌋₊) 0)).set
          (⌊r * ((i : ℚ) + 2)⌋₊) (l.getD (i + 1) 0)).length := by
        simp only [List.length_set]
        omega
      exact (ih _ s1 hlen).trans (set_set_swap_perm l (i + 1) _ hi hj)

lemma fisherYates_perm {σ : Type} (next : σ → ℚ × σ)
    (hnext : ∀ s, 0 ≤ (next s).1 ∧ (next s).1 < 1) (l : List ℕ) (s : σ) :
    ((fisherYates next l s).1).Perm l := by
  cases l with
  | nil => exact List.Perm.refl _
  | cons h t => exact fyAux_perm next hnext _ _ s (by simp)

lemma bumpAll_apply : ∀ (l : List ℕ) (f : ℕ → ℕ) (x : ℕ),
    bumpAll f l x = f x + l.count x := by
  intro l
  induction l with
  | nil => intro f x; simp [bumpAll]
  | cons a t ih =>
      intro f x
      show bumpAll (bumpFreq f a) t x = _
      rw [ih]
      by_cases hx : x = a
      · subst hx
        simp [bumpFreq, List.count_cons]
        omega
      · simp [bumpFreq, hx, List.count_cons, Ne.symm hx]

lemma insertBy_front {α : Type} (le : α → α → Bool) (x : α) (l : List α)
    (h : ∀ b ∈ l, le x b = true) : insertBy le x l = x :: l := by
  cases l with
  | nil => rfl
  | cons y t =>
      show (if le x y then x :: y :: t else y :: insertBy le x t) = _
      rw [if_pos (h y (List.mem_cons_self y t))]

lemma sortBy_id {α : Type} (le : α → α → Bool) :
    ∀ l : List α, (∀ a ∈ l, ∀ b ∈ l, le a b = true) → sortBy le l = l := by
  intro l
  induction l with
  | nil => intro _; rfl
  | cons a t ih =>
      intro h
      show insertBy le a (sortBy le t) = a :: t
      rw [ih (fun x hx b hb =>
        h x (List.mem_cons_of_mem a hx) b (List.mem_cons_of_mem a hb))]
      exact insertBy_front le a t
        (fun b hb => h a (List.mem_cons_self a t) b (List.mem_cons_of_mem a hb))


lemma updateShuffled_5 {σ : Type} (next : σ → ℚ × σ)
    (hnext : ∀ s, 0 ≤ (next s).1 ∧ (next s).1 < 1) (ss : SamplerState)
    (hmb : ss.minibatchSize = 2) (hfq : ss.freq = fun _ => 0) (s : σ) :
    ∃ ids : List ℕ,
      ids.Perm (List.range 5) ∧
      updateShuffled next 5 ss s =
        ({ ss with
            shuffled := ids ++ [0]
            epoch := ss.epoch + 1
            freq := bumpFreq (bumpAll ss.freq ids) 0 },
          (fisherYates next (List.range 5) s).2) := by
  rcases hfy : fisherYates next (List.range 5) s with ⟨ids, s1⟩
  have hperm : ids.Perm (List.range 5) := by
    have h := fisherYates_perm next hnext (List.range 5) s
    rw [hfy] at h
    exact h
  have hcount : ∀ a ∈ List.range 5, bumpAll ss.freq ids a = 1 := by
    intro a ha
    rw [bumpAll_apply, hfq, hperm.count_eq,
      List.count_eq_one_of_mem (List.nodup_range 5) ha]
  have hsort : sortBy (fun a b => decide (bumpAll ss.freq ids a ≤ bumpAll ss.freq ids b))
      (List.range 5) = List.range 5 := by
    apply sortBy_id
    intro a ha b hb
    rw [hcount a ha, hcount b hb]
    rfl
  refine ⟨ids, hperm, ?_⟩
  simp only [updateShuffled, hfy, hmb]
  norm_num
  rw [hsort]
  have hpad : padLoop (List.range 5) 1 (bumpAll ss.freq ids) =
      ([0], bumpFreq (bumpAll ss.freq ids) 0) := rfl
  rw [hpad]
  exact ⟨rfl, rfl⟩


lemma nextBatch_0 {σ : Type} (next : σ → ℚ × σ)
    (hnext : ∀ s, 0 ≤ (next s).1 ∧ (next s).1 < 1) (s : σ) :
    ∃ ids : List ℕ,
      ids.Perm (List.range 5) ∧
      nextBatch next [0, 1, 2, 3, 4] 0 { minibatchSize := 2 } s =
        (((ids ++ [0]).take 2).map (fun i => [0, 1, 2, 3, 4].getD i 0),
          { minibatchSize := 2
            shuffled := ids ++ [0]
            epoch := 1
            freq := bumpFreq (bumpAll (fun _ => 0) ids) 0 },
          (fisherYates next (List.range 5) s).2) := by
  obtain ⟨ids, hperm, hupd⟩ := updateShuffled_5 next hnext
      { minibatchSize := 2, epoch := 0 } rfl rfl s
  have hlen5 : ids.length = 5 := by
    have h := hperm.length_eq
    simpa using h
  refine ⟨ids, hperm, ?_⟩
  simp only [nextBatch]
  norm_num
  rw [hupd]
  dsimp only
  simp [iterUpdate]


lemma nextBatch_later {σ : Type} (next : σ → ℚ × σ) (s : σ) (ss : SamplerState)
    (hmb : ss.minibatchSize = 2) (hlen : ss.shuffled.length = 6) (hep : ss.epoch = 1)
    (it : ℕ) (hit : it = 1 ∨ it = 2) :
    nextBatch next [0, 1, 2, 3, 4] it ss s =
      (((ss.shuffled.drop (it * 2)).take 2).map (fun i => [0, 1, 2, 3, 4].getD i 0),
        ss, s) := by
  rcases hit with hit | hit <;>
    subst hit <;>
    simp [nextBatch, hmb, hlen, hep, iterUpdate]


/-- C6: for a 5-element training set with minibatch size 2 and any rng stream of
draws in `[0, 1)`, the first epoch (iterations 0, 1, 2) has 6 slots; the first
five slots are a permutation of the indices 0–4 (each appears once before any
repeat), the padded sixth slot carries a least-frequently-seen index, each batch
has size 2, and the three batches jointly cover every index. -/
theorem c6_epoch (f : ℕ → ℚ) (hf : ∀ n, 0 ≤ f n ∧ f n < 1) : EpochProp f := by
  have hnext : ∀ n : ℕ, 0 ≤ (streamNext f n).1 ∧ (streamNext f n).1 < 1 := fun n => hf n
  obtain ⟨ids, hperm, h0⟩ := nextBatch_0 (streamNext f) hnext 0
  have hlen5 : ids.length = 5 := by
    have h := hperm.length_eq
    simpa using h
  have hlen6 : (ids ++ [0]).length = 6 := by simp [hlen5]
  have h1 := nextBatch_later (streamNext f)
      (fisherYates (streamNext f) (List.range 5) 0).2
      { minibatchSize := 2
        shuffled := ids ++ [0]
        epoch := 1
        freq := bumpFreq (bumpAll (fun _ => 0) ids) 0 }
      rfl hlen6 rfl 1 (Or.inl rfl)
  have h2 := nextBatch_later (streamNext f)
      (fisherYates (streamNext f) (List.range 5) 0).2
      { minibatchSize := 2
        shuffled := ids ++ [0]
        epoch := 1
        freq := bumpFreq (bumpAll (fun _ => 0) ids) 0 }
      rfl hlen6 rfl 2 (Or.inr rfl)
  have hrun : epochRun f =
      ((((ids ++ [0]).take 2).map (fun i => [0, 1, 2, 3, 4].getD i 0),
        { minibatchSize := 2
          shuffled := ids ++ [0]
          epoch := 1
          freq := bumpFreq (bumpAll (fun _ => 0) ids) 0 },
        (fisherYates (streamNext f) (List.range 5) 0).2),
       ((((ids ++ [0]).drop (1 * 2)).take 2).map (fun i => [0, 1, 2, 3, 4].getD i 0),
        { minibatchSize := 2
          shuffled := ids ++ [0]
          epoch := 1
          freq := bumpFreq (bumpAll (fun _ => 0) ids) 0 },
        (fisherYates (streamNext f) (List.range 5) 0).2),
       ((((ids ++ [0]).drop (2 * 2)).take 2).map (fun i => [0, 1, 2, 3, 4].getD i 0),
        { minibatchSize := 2
          shuffled := ids ++ [0]
          epoch := 1
          freq := bumpFreq (bumpAll (fun _ => 0) ids) 0 },
        (fisherYates (streamNext f) (List.range 5) 0).2)) := by
    simp only [epochRun, h0, h1, h2]
  rw [show (1 * 2 : ℕ) = 2 from rfl, show (2 * 2 : ℕ) = 4 from rfl] at hrun
  have hgetD : (ids ++ [0]).getD 5 0 = 0 := by
    rw [List.getD_eq_getElem?_getD, ← hlen5, List.getElem?_concat_length]
    rfl
  have htake : (ids ++ [0]).take 5 = ids := by
    rw [← hlen5]
    exact List.take_left ids [0]
  have hcnt : ∀ x ∈ List.range 5, ids.count x = 1 := fun x hx => by
    rw [hperm.count_eq]
    exact List.count_eq_one_of_mem (List.nodup_range 5) hx
  unfold EpochProp
  rw [hrun]
  dsimp only
  refine ⟨hlen6, ?_, ?_, ?_, ?_, ?_, ?_, ?_⟩
  · rw [htake]
    exact (hperm.nodup_iff).mpr (List.nodup_range 5)
  · intro i hi
    rw [htake]
    exact hperm.mem_iff.mpr (List.mem_range.mpr hi)
  · intro i hi
    rw [htake, hgetD, hcnt 0 (by simp), hcnt i (List.mem_range.mpr hi)]
  · simp [hlen5]
  · simp [hlen5]
  · simp [hlen5]
  · intro i hi
    have hival : [0, 1, 2, 3, 4].getD i 0 = i := by interval_cases i <;> rfl
    have hish : i ∈ ids ++ [0] :=
      List.mem_append_left _ (hperm.mem_iff.mpr (List.mem_range.mpr hi))
    have hconc : (ids ++ [0]).take 2 ++ ((ids ++ [0]).drop 2).take 2 ++
        ((ids ++ [0]).drop 4).take 2 = ids ++ [0] := by
      rw [← List.take_add, ← List.take_add]
      rw [show (2 + 2 + 2 : ℕ) = 6 from rfl, ← hlen6]
      exact List.take_length _
    rw [← List.map_append, ← List.map_append, hconc]
    exact List.mem_map.mpr ⟨i, hish, hival⟩


/-- Witness for `c6_epoch` at the all-zero draw stream. -/
theorem c6_witness :
    (∀ n, 0 ≤ zeroStream n ∧ zeroStream n < 1) ∧ EpochProp zeroStream :=
  ⟨fun _ => ⟨le_rfl, by norm_num [zeroStream]⟩,
   c6_epoch zeroStream (fun _ => ⟨le_rfl, by norm_num [zeroStream]⟩)⟩

end DSTS
